import Mathlib

/-!
Verification of the snowscrape crawl execution engine.

Shallow embedding of the relevant program functions, translated from the
Python source:
  - `tiered_scraper.py` : `detect_blocking`, `smart_scrape` (tier escalation)
  - `rate_limiter.py`   : `DomainRateLimiter.wait_if_needed`
  - `backend/validators.py` : `validate_scrape_url`, `_is_ip_blocked`,
    `InputValidator.validate_url`, `validate_regex_pattern`, `validate_xpath_query`
  - `backend/crawl_manager.py` : `process_queries`
  - `backend/crawler.py` : `execute_query`
  - `job_manager.py` : `process_job` (timeout / cancellation skeleton)

Python strings are modelled as `List Char` (`PyStr`).  External-world
effects (HTTP fetches, DNS resolution via `socket.getaddrinfo`, the
`lxml`/`re`/`jsonpath_ng` libraries, wall-clock time) are modelled as
explicit oracle parameters; everything the repository itself computes is
translated directly.
-/

set_option maxRecDepth 20000

namespace Snowscrape

abbrev PyStr := List Char

/-- Python `str.isspace` characters relevant to `str.strip()` (ASCII subset). -/
def pyIsSpace (c : Char) : Bool :=
  c = ' ' || c = '\t' || c = '\n' || c = '\x0d' || c = '\x0b' || c = '\x0c'

/-- Python `str.strip()` (whitespace at both ends removed). -/
def pyStrip (s : PyStr) : PyStr :=
  ((s.dropWhile pyIsSpace).reverse.dropWhile pyIsSpace).reverse

/-- Membership of a substring, modelling Python's `needle in haystack`. -/
def containsSub (needle : PyStr) : PyStr → Bool
  | [] => needle.isEmpty
  | c :: rest => needle.isPrefixOf (c :: rest) || containsSub needle rest

/-! ## Blocking detector (`tiered_scraper.detect_blocking`) -/

/-- The challenge-page phrase table of `detect_blocking` (pattern, indicator). -/
def blocking_patterns : List (PyStr × String) :=
  [("just a moment...".data, "cloudflare_challenge"),
   ("checking your browser".data, "cloudflare_challenge"),
   ("enable javascript and cookies".data, "cloudflare_challenge"),
   ("cf-browser-verification".data, "cloudflare_verification"),
   ("access denied".data, "access_denied"),
   ("access forbidden".data, "access_forbidden"),
   ("verify you are human".data, "human_verification"),
   ("prove you are human".data, "human_verification"),
   ("unusual traffic from your computer network".data, "unusual_traffic"),
   ("automated access".data, "automation_detected"),
   ("please complete the security check".data, "security_check"),
   ("perimeterpx".data, "perimeterx_challenge"),
   ("datadome".data, "datadome_challenge")]

/-- Check 1 of `detect_blocking`: strong status-code signals. -/
def statusIndicators (statusCode : Nat) : List String :=
  if statusCode = 403 then ["403_forbidden"]
  else if statusCode = 429 then ["429_rate_limited"]
  else if statusCode = 503 then ["503_service_unavailable"]
  else []

/-- Check 2 of `detect_blocking`: challenge-page phrases found in the
lowercased body, in table order. -/
def contentIndicators (text : PyStr) : List String :=
  if text.isEmpty then []
  else
    let lower := text.map Char.toLower
    (blocking_patterns.filter (fun p => containsSub p.1 lower)).map Prod.snd

/-- `tiered_scraper.detect_blocking` for a response with the given status
code and body text (`response.text`).  Returns `(is_blocked, indicators)`. -/
def detect_blocking (statusCode : Nat) (text : PyStr) : Bool × List String :=
  let ind1 := statusIndicators statusCode ++ contentIndicators text
  let ind2 :=
    if ¬ text.isEmpty ∧ (pyStrip text).length < 200 ∧ (ind1 ≠ [] ∨ 400 ≤ statusCode)
    then ind1 ++ ["minimal_content"] else ind1
  (!ind2.isEmpty, ind2)

/-! ## Tiered escalation controller (`tiered_scraper.smart_scrape`)

Each `scrape_tier_N` call performs network I/O; its observable outcome is
modelled by the oracle `attempt : Nat → TierOutcome`:
`success` for a normal return, `blocked` for a raised
`BlockingDetectionError` (carrying its indicator list and message),
`notImplemented` for a raised `NotImplementedError`, and `exc` for any
other raised exception. -/

inductive TierOutcome where
  | success
  | blocked (indicators : List String) (msg : String)
  | notImplemented (msg : String)
  | exc (msg : String)
deriving DecidableEq

/-- Outcome of `smart_scrape`: a normal return `(result, tier_used,
escalation_log)` or a raised exception (the log is the local value at
raise time). -/
inductive ScrapeResult where
  | ok (tierUsed : Nat) (escalationLog : List String)
  | raised (msg : String) (escalationLog : List String)
deriving DecidableEq

/-- `TIER_INFO[t]['name']`. -/
def tierName (t : Nat) : String :=
  if t = 1 then "Lightweight"
  else if t = 2 then "IP Rotation"
  else if t = 3 then "Browser Mode"
  else if t = 4 then "CAPTCHA Solving"
  else ""

/-- The error message built when a tier raises `NotImplementedError`. -/
def notImplementedMsg (t : Nat) (msg : String) : String :=
  let name := tierName t
  let base := s!"This site requires Tier {t} ({name}) which is not yet implemented. {msg} "
  if t = 2 then base ++ "Proxy integration is planned for Week 1."
  else if t = 3 then base ++ "Browser mode is planned for Week 2."
  else if t = 4 then base ++ "CAPTCHA solving is planned for Week 3."
  else base

/-- Log line `f"Attempting Tier {t} ({tier_name})"`. -/
def attemptingLine (t : Nat) : String :=
  let name := tierName t
  s!"Attempting Tier {t} ({name})"

/-- Log line `f"✅ Success with Tier {t}"`. -/
def successLine (t : Nat) : String := s!"✅ Success with Tier {t}"

/-- Log line `f"❌ Tier {t} blocked: {', '.join(e.indicators)}"`. -/
def blockedLine (t : Nat) (indicators : List String) : String :=
  let joined := String.intercalate ", " indicators
  s!"❌ Tier {t} blocked: {joined}"

/-- Log line `f"⬆️ Escalating to Tier {t}"`. -/
def escalatingLine (t : Nat) : String := s!"⬆️ Escalating to Tier {t}"

/-- Log line `f"⚠️ Tier {t} not implemented: {msg}"`. -/
def notImplementedLine (t : Nat) (msg : String) : String :=
  s!"⚠️ Tier {t} not implemented: {msg}"

/-- Log line `f"❌ Tier {t} error: {msg}"`. -/
def errorLine (t : Nat) (msg : String) : String := s!"❌ Tier {t} error: {msg}"

/-- Log line `f"⬆️ Escalating to Tier {t} after error"`. -/
def escalatingErrorLine (t : Nat) : String := s!"⬆️ Escalating to Tier {t} after error"

/-- Exception message `f"Scraping failed at Tier {t}: {msg}"`. -/
def tierFailedMsg (t : Nat) (msg : String) : String :=
  s!"Scraping failed at Tier {t}: {msg}"

/-- Exception message `f"All tiers exhausted (1-{maxTier}). Scraping failed."`. -/
def exhaustedMsg (maxTier : Nat) : String :=
  s!"All tiers exhausted (1-{maxTier}). Scraping failed."

/-- The `while current_tier <= max_tier` loop of `smart_scrape`.  `fuel` is
a structural bound on the remaining iterations (the caller supplies
`max_tier + 1 - min_tier`, which is exact). -/
def smartScrapeGo (attempt : Nat → TierOutcome) (autoEscalate : Bool) (maxTier : Nat) :
    Nat → Nat → List String → ScrapeResult
  | fuel, currentTier, log =>
    if maxTier < currentTier then .raised (exhaustedMsg maxTier) log
    else
      match fuel with
      | 0 => .raised (exhaustedMsg maxTier) log
      | fuel' + 1 =>
        let log1 := log ++ [attemptingLine currentTier]
        match attempt currentTier with
        | .success => .ok currentTier (log1 ++ [successLine currentTier])
        | .blocked indicators msg =>
          let log2 := log1 ++ [blockedLine currentTier indicators]
          if autoEscalate = false ∨ maxTier ≤ currentTier then
            .raised (tierFailedMsg currentTier msg) log2
          else
            smartScrapeGo attempt autoEscalate maxTier fuel' (currentTier + 1)
              (log2 ++ [escalatingLine (currentTier + 1)])
        | .notImplemented msg =>
          .raised (notImplementedMsg currentTier msg)
            (log1 ++ [notImplementedLine currentTier msg])
        | .exc msg =>
          let log2 := log1 ++ [errorLine currentTier msg]
          if autoEscalate = false ∨ maxTier ≤ currentTier then
            .raised msg log2
          else
            smartScrapeGo attempt autoEscalate maxTier fuel' (currentTier + 1)
              (log2 ++ [escalatingErrorLine (currentTier + 1)])

/-- `tiered_scraper.smart_scrape(url, min_tier, max_tier, auto_escalate, ...)`. -/
def smart_scrape (attempt : Nat → TierOutcome) (minTier maxTier : Nat)
    (autoEscalate : Bool) : ScrapeResult :=
  smartScrapeGo attempt autoEscalate maxTier (maxTier + 1 - minTier) minTier []

/-- The escalation log carried by a `ScrapeResult`. -/
def ScrapeResult.log : ScrapeResult → List String
  | .ok _ l => l
  | .raised _ l => l

/-! ## Query extraction (`backend/crawler.execute_query`,
`backend/crawl_manager.process_queries`)

The underlying extraction libraries (`lxml` XPath evaluation, `re.findall`,
`json.loads` + `jsonpath_ng`) are modelled as oracle functions returning
`Option (List PyStr)`: `some results` is a normal stringified match list,
`none` models a raised exception (bad expression, JSON decode error, or —
for `safe_regex_findall` in `process_queries` — a regex execution timeout);
in every such case both Python functions record `None` for the query.
`process_queries` receives `bytes` content where `execute_query` receives
`str`; the model uses one text value for both. -/

/-- A Python value as stored in a query-result slot. -/
inductive PyVal where
  | none
  | str (s : PyStr)
  | pylist (l : List PyStr)
deriving DecidableEq

/-- A query dict: `name`, `type` (field `qtype`), the expression
(`selector` / `query` key; field `query`), and the `join` flag. -/
structure Query where
  name : PyStr
  qtype : PyStr
  query : PyStr
  join : Bool
deriving DecidableEq

/-- `'|'.join(results)`. -/
def joinPipe (results : List PyStr) : PyStr :=
  List.intercalate ['|'] results

/-- Python `re.findall(pattern, text)` for a *literal* pattern (one with no
regex metacharacters): the non-overlapping occurrences of the pattern, left
to right.  `fuel` bounds the scan by the text length. -/
def reFindallLitGo (p : PyStr) : Nat → PyStr → List PyStr
  | _, [] => []
  | 0, _ => []
  | fuel + 1, c :: rest =>
    if p.isPrefixOf (c :: rest) then
      p :: reFindallLitGo p fuel (List.drop (p.length - 1) rest)
    else reFindallLitGo p fuel rest

/-- `re.findall` for a nonempty literal pattern. -/
def reFindallLit (p t : PyStr) : List PyStr :=
  if p.isEmpty then [] else reFindallLitGo p t.length t

/-- `backend/crawler.execute_query(content, query)`. -/
def execute_query (xpathEval regexEval jsonEval : PyStr → PyStr → Option (List PyStr))
    (content : PyStr) (q : Query) : PyVal :=
  if q.query.isEmpty then .none
  else
    match (if q.qtype = "xpath".data then xpathEval content q.query
           else if q.qtype = "regex".data then regexEval q.query content
           else if q.qtype = "jsonpath".data then jsonEval content q.query
           else none) with
    | Option.none => .none
    | Option.some results =>
      if q.join = true ∧ results ≠ [] then .str (joinPipe results)
      else
        match results with
        | [] => .none
        | r :: rest => if rest = [] then .str r else .pylist (r :: rest)

/-- The PDF query types of `process_queries`. -/
def pdfTypes : List PyStr := ["pdf_text".data, "pdf_table".data, "pdf_metadata".data]

/-- Insertion into `extracted_data` with Python-dict overwrite semantics. -/
def dictInsert (k : PyStr) (v : PyVal) : List (PyStr × PyVal) → List (PyStr × PyVal)
  | [] => [(k, v)]
  | (k', v') :: rest => if k' = k then (k, v) :: rest else (k', v') :: dictInsert k v rest

/-- Association-list lookup (Python dict access). -/
def dictGet (k : PyStr) : List (PyStr × PyVal) → Option PyVal
  | [] => Option.none
  | (k', v') :: rest => if k' = k then some v' else dictGet k rest

/-- The join/shape step at the end of the `process_queries` loop body:
`'|'.join(...)` when `join` and the match list is nonempty, otherwise the
match list itself (note: the *list*, even when empty). -/
def shapeJoin (join : Bool) (results : List PyStr) : PyVal :=
  if join = true ∧ results ≠ [] then .str (joinPipe results) else .pylist results

/-- One iteration of the `for query in queries` loop of
`backend/crawl_manager.process_queries`, updating `extracted_data`. -/
def processQueryStep (xpathEval regexEval jsonEval : PyStr → PyStr → Option (List PyStr))
    (pdfText : PyStr → PyStr) (pdfEval : PyStr → Query → PyVal)
    (isPdf htmlTreeAvailable : Bool) (content : PyStr) (q : Query)
    (acc : List (PyStr × PyVal)) : List (PyStr × PyVal) :=
  if q.query.isEmpty ∧ q.qtype ∉ pdfTypes then acc
  else if q.qtype = "xpath".data then
    if htmlTreeAvailable = false then dictInsert q.name .none acc
    else
      match xpathEval content q.query with
      | Option.none => dictInsert q.name .none acc
      | Option.some results => dictInsert q.name (shapeJoin q.join results) acc
  else if q.qtype = "regex".data then
    match regexEval q.query (if isPdf then pdfText content else content) with
    | Option.none => dictInsert q.name .none acc
    | Option.some results => dictInsert q.name (shapeJoin q.join results) acc
  else if q.qtype = "jsonpath".data then
    match jsonEval content q.query with
    | Option.none => dictInsert q.name .none acc
    | Option.some results => dictInsert q.name (shapeJoin q.join results) acc
  else if q.qtype ∈ pdfTypes then
    if isPdf = false then dictInsert q.name .none acc
    else dictInsert q.name (pdfEval content q) acc
  else dictInsert q.name .none acc

/-- `backend/crawl_manager.process_queries(page_content, queries, ...)`.
`htmlParseFails` models `BeautifulSoup`/`etree.HTML` raising, which leaves
`html_tree = None`. -/
def process_queries (xpathEval regexEval jsonEval : PyStr → PyStr → Option (List PyStr))
    (pdfText : PyStr → PyStr) (pdfEval : PyStr → Query → PyVal)
    (isPdf htmlParseFails : Bool) (content : PyStr) (queries : List Query) :
    List (PyStr × PyVal) :=
  let hasHtmlQueries := queries.any (fun q => q.qtype = "xpath".data || q.qtype = "regex".data)
  let htmlTreeAvailable := !isPdf && hasHtmlQueries && !htmlParseFails
  queries.foldl
    (fun acc q =>
      processQueryStep xpathEval regexEval jsonEval pdfText pdfEval isPdf htmlTreeAvailable
        content q acc)
    []

/-! ## Regex safety validator
(`backend/validators.InputValidator.validate_regex_pattern`)

The ReDoS heuristics are fixed regex searches over the pattern text; each
is translated into an equivalent character scanner.  `re.compile`
succeeding is modelled by the oracle `compiles`. -/

def MAX_REGEX_PATTERN_LENGTH : Nat := 500

def MAX_REGEX_QUANTIFIERS : Nat := 5

inductive RegexValidationError where
  | emptyPattern
  | tooLong
  | compileError
  | nestedQuantifiers
  | overlappingAlternation
  | quantifiedAlternation
  | tooComplex (count : Nat)
deriving DecidableEq

def isQuantChar (c : Char) : Bool := c = '*' || c = '+'

/-- Scanner for `re.search(r'\([^)]*[*+]\)[*+]', pattern)`: a `')'`
immediately preceded by a quantifier and followed by a quantifier, with a
`'('` and no `')'` in between.  State: previous character, and whether a
`'('` occurred since the last `')'`. -/
def nestedQuantGo : PyStr → Option Char → Bool → Bool
  | [], _, _ => false
  | c :: rest, prev, openSeen =>
    if c = ')' then
      (match rest with
       | n :: _ => openSeen && prev.elim false isQuantChar && isQuantChar n
       | [] => false)
      || nestedQuantGo rest (some c) false
    else nestedQuantGo rest (some c) (openSeen || c = '(')

def hasNestedQuantifier (s : PyStr) : Bool := nestedQuantGo s none false

/-- Scanner for `re.findall(r'\(([^()]*\|[^()]*)\)', pattern)`: the bodies
of paren-free groups that contain a `'|'`, left to right.  `acc` is the
reversed body collected since the most recent `'('`. -/
def altGroupsGo : PyStr → Option PyStr → List PyStr
  | [], _ => []
  | c :: rest, acc =>
    if c = '(' then altGroupsGo rest (some [])
    else if c = ')' then
      match acc with
      | some body =>
        if '|' ∈ body then body.reverse :: altGroupsGo rest none else altGroupsGo rest none
      | none => altGroupsGo rest none
    else
      match acc with
      | some body => altGroupsGo rest (some (c :: body))
      | none => altGroupsGo rest none

def altGroups (s : PyStr) : List PyStr := altGroupsGo s none

/-- Python `str.split('|')`. -/
def splitAll (c : Char) : PyStr → List PyStr
  | [] => [[]]
  | a :: rest =>
    let r := splitAll c rest
    if a = c then [] :: r
    else
      match r with
      | h :: t => (a :: h) :: t
      | [] => [[a]]

/-- The characters removed by `re.sub(r'[*+?{}\[\]]', '', alt)`. -/
def quantMeta (c : Char) : Bool :=
  c = '*' || c = '+' || c = '?' || c = Char.ofNat 123 || c = Char.ofNat 125 ||
  c = '[' || c = ']'

/-- `clean_a` / `clean_b`: strip quantifier metacharacters, then whitespace. -/
def cleanAlt (s : PyStr) : PyStr := pyStrip (s.filter (fun c => !quantMeta c))

/-- The overlapping-alternation check (check 2 of `validate_regex_pattern`). -/
def hasOverlappingAlternation (pattern : PyStr) : Bool :=
  (altGroups pattern).any (fun g =>
    let alternatives := splitAll '|' g
    alternatives.enum.any (fun ia =>
      alternatives.enum.any (fun jb =>
        ia.1 ≠ jb.1 && !ia.2.isEmpty && !jb.2.isEmpty &&
        (let ca := cleanAlt ia.2
         let cb := cleanAlt jb.2
         !ca.isEmpty && !cb.isEmpty && (cb.isPrefixOf ca || ca.isPrefixOf cb)))))

/-- Scanner for `re.search(r'\([^)]*[*+][^)]*\|[^)]*\)[*+]', pattern)`:
a `')'` followed by a quantifier, with — since the last `')'` — a `'('`,
then (after it) a quantifier, then (after that) a `'|'`. -/
def quantAltGo : PyStr → Bool → Bool → Bool → Bool
  | [], _, _, _ => false
  | c :: rest, seenOpen, seenQuant, seenPipe =>
    if c = ')' then
      (match rest with
       | n :: _ => seenPipe && isQuantChar n
       | [] => false)
      || quantAltGo rest false false false
    else if c = '(' then quantAltGo rest true seenQuant seenPipe
    else if isQuantChar c then quantAltGo rest seenOpen (seenQuant || seenOpen) seenPipe
    else if c = '|' then quantAltGo rest seenOpen seenQuant (seenPipe || seenQuant)
    else quantAltGo rest seenOpen seenQuant seenPipe

def hasQuantifiedAlternation (s : PyStr) : Bool := quantAltGo s false false false

/-- Counter for `len(re.findall(r'(?<!\\)[*+?]|\{[\d,]+\}', pattern))`.
State: previous character, and `some n` when inside a brace candidate
having consumed `n` digit/comma characters. -/
def countQuantGo : PyStr → Option Char → Option Nat → Nat
  | [], _, _ => 0
  | c :: rest, prev, some n =>
    if c.isDigit ∨ c = ',' then countQuantGo rest (some c) (some (n + 1))
    else if c = Char.ofNat 125 ∧ n ≠ 0 then 1 + countQuantGo rest (some c) none
    else if (c = '*' ∨ c = '+' ∨ c = '?') ∧ prev ≠ some '\\' then
      1 + countQuantGo rest (some c) none
    else if c = Char.ofNat 123 then countQuantGo rest (some c) (some 0)
    else countQuantGo rest (some c) none
  | c :: rest, prev, none =>
    if (c = '*' ∨ c = '+' ∨ c = '?') ∧ prev ≠ some '\\' then
      1 + countQuantGo rest (some c) none
    else if c = Char.ofNat 123 then countQuantGo rest (some c) (some 0)
    else countQuantGo rest (some c) none

def countQuantifiers (s : PyStr) : Nat := countQuantGo s none none

/-- `InputValidator.validate_regex_pattern(pattern)` from
`backend/validators.py`.  `compiles` models `re.compile` succeeding. -/
def validate_regex_pattern (compiles : PyStr → Bool) (pattern : PyStr) :
    Except RegexValidationError PyStr :=
  if pattern.isEmpty then .error .emptyPattern
  else if MAX_REGEX_PATTERN_LENGTH < (pyStrip pattern).length then .error .tooLong
  else if compiles (pyStrip pattern) = false then .error .compileError
  else if hasNestedQuantifier (pyStrip pattern) then .error .nestedQuantifiers
  else if hasOverlappingAlternation (pyStrip pattern) then .error .overlappingAlternation
  else if hasQuantifiedAlternation (pyStrip pattern) then .error .quantifiedAlternation
  else if MAX_REGEX_QUANTIFIERS < countQuantifiers (pyStrip pattern) then
    .error (.tooComplex (countQuantifiers (pyStrip pattern)))
  else .ok (pyStrip pattern)

/-! ## XPath safety validator
(`backend/validators.InputValidator.validate_xpath_query`) -/

def MAX_XPATH_LENGTH : Nat := 1000

def ALLOWED_XPATH_FUNCTIONS : List PyStr :=
  ["text", "contains", "starts-with", "ends-with", "normalize-space",
   "position", "last", "count", "string-length",
   "concat", "substring", "substring-before", "substring-after",
   "not", "and", "or", "true", "false",
   "string", "number", "boolean", "translate", "sum",
   "local-name", "name", "namespace-uri",
   "comment", "processing-instruction", "node"].map String.data

inductive XPathValidationError where
  | emptyQuery
  | tooLong
  | disallowedFunction (name : PyStr)
  | unbalancedBrackets
  | unbalancedParens
  | excessiveNesting
deriving DecidableEq

def isWordChar (c : Char) : Bool := c.isAlpha || c.isDigit || c = '_'

def isWordHyphen (c : Char) : Bool := isWordChar c || c = '-'

/-- Scanner for `re.findall(r'(\w[\w-]*)\s*\(', xpath)`: for each `'('`,
the maximal `[\w-]` run before it (whitespace allowed in between), with
leading hyphens dropped so the name starts with a word character.
State: the reversed current run, and whether whitespace followed it. -/
def findFunctionsGo : PyStr → PyStr → Bool → List PyStr
  | [], _, _ => []
  | c :: rest, runRev, ws =>
    if c = '(' then
      let name := runRev.reverse.dropWhile (fun x => x = '-')
      (if name.isEmpty then [] else [name]) ++ findFunctionsGo rest [] false
    else if isWordHyphen c then
      if ws then findFunctionsGo rest [c] false
      else findFunctionsGo rest (c :: runRev) false
    else if pyIsSpace c then findFunctionsGo rest runRev true
    else findFunctionsGo rest [] false

def findFunctions (s : PyStr) : List PyStr := findFunctionsGo s [] false

/-- Maximum combined `[`/`(` nesting depth (the Python depth counter may go
negative, hence `Int`). -/
def maxDepthGo : PyStr → Int → Int → Int
  | [], _, m => m
  | c :: rest, cur, m =>
    if c = '[' ∨ c = '(' then maxDepthGo rest (cur + 1) (max m (cur + 1))
    else if c = ']' ∨ c = ')' then maxDepthGo rest (cur - 1) m
    else maxDepthGo rest cur m

/-- `InputValidator.validate_xpath_query(xpath)` from `backend/validators.py`
(function-whitelist version). -/
def validate_xpath_query (xpath : PyStr) : Except XPathValidationError PyStr :=
  if xpath.isEmpty then .error .emptyQuery
  else if MAX_XPATH_LENGTH < (pyStrip xpath).length then .error .tooLong
  else
    match (findFunctions (pyStrip xpath)).find? (fun f => f ∉ ALLOWED_XPATH_FUNCTIONS) with
    | some f => .error (.disallowedFunction f)
    | none =>
      if (pyStrip xpath).count '[' ≠ (pyStrip xpath).count ']' then .error .unbalancedBrackets
      else if (pyStrip xpath).count '(' ≠ (pyStrip xpath).count ')' then
        .error .unbalancedParens
      else if 20 < maxDepthGo (pyStrip xpath) 0 0 then .error .excessiveNesting
      else .ok (pyStrip xpath)

/-! ## SSRF protection (`backend/validators._is_ip_blocked`,
`backend/validators.validate_scrape_url`)

An IP address obtained from `socket.getaddrinfo` is modelled already
parsed: `v4 a` is an IPv4 address with 32-bit numeric value `a`, `v6 a` an
IPv6 address with 128-bit value `a`, and `invalid` an address string that
`ipaddress.ip_address` fails to parse (the fail-safe deny branch).
`urllib.parse.urlparse`'s `.scheme` / `.hostname` and DNS resolution are
oracles. -/

inductive IPAddr where
  | v4 (a : Nat)
  | v6 (a : Nat)
  | invalid
deriving DecidableEq

/-- Membership of a 32-bit value in an IPv4 network given as (network
address, prefix length). -/
def ipv4InNetwork (a netAddr prefixLen : Nat) : Bool :=
  a / 2 ^ (32 - prefixLen) = netAddr / 2 ^ (32 - prefixLen)

/-- Membership of a 128-bit value in an IPv6 network. -/
def ipv6InNetwork (a netAddr prefixLen : Nat) : Bool :=
  a / 2 ^ (128 - prefixLen) = netAddr / 2 ^ (128 - prefixLen)

/-- `_BLOCKED_IPV4_NETWORKS`: loopback, private A/B/C, link-local,
unspecified. -/
def BLOCKED_IPV4_NETWORKS : List (Nat × Nat) :=
  [(127 * 2 ^ 24, 8),
   (10 * 2 ^ 24, 8),
   (172 * 2 ^ 24 + 16 * 2 ^ 16, 12),
   (192 * 2 ^ 24 + 168 * 2 ^ 16, 16),
   (169 * 2 ^ 24 + 254 * 2 ^ 16, 16),
   (0, 8)]

/-- `_BLOCKED_IPV6_NETWORKS`: `::1/128`, `fc00::/7`, `fe80::/10`. -/
def BLOCKED_IPV6_NETWORKS : List (Nat × Nat) :=
  [(1, 128),
   (0xfc00 * 2 ^ 112, 7),
   (0xfe80 * 2 ^ 112, 10)]

/-- `ipaddress.IPv6Address.ipv4_mapped`: for `::ffff:a.b.c.d` (numeric
value `v` with `v >>> 32 = 0xffff`) the wrapped IPv4 value, else `none`. -/
def ipv4Mapped (a : Nat) : Option Nat :=
  if a / 2 ^ 32 = 0xffff then some (a % 2 ^ 32) else none

/-- `backend/validators._is_ip_blocked(ip_str)`. -/
def is_ip_blocked : IPAddr → Bool
  | .v4 a => BLOCKED_IPV4_NETWORKS.any (fun n => ipv4InNetwork a n.1 n.2)
  | .v6 a =>
    match ipv4Mapped a with
    | some m => BLOCKED_IPV4_NETWORKS.any (fun n => ipv4InNetwork m n.1 n.2)
    | none => BLOCKED_IPV6_NETWORKS.any (fun n => ipv6InNetwork a n.1 n.2)
  | .invalid => true

/-- The `.scheme` and `.hostname` of a `urlparse` result, as used by
`validate_scrape_url`. -/
structure ParsedForScrape where
  scheme : PyStr
  hostname : Option PyStr
deriving DecidableEq

inductive ScrapeUrlError where
  | notNonEmptyString
  | invalidFormat
  | schemeNotAllowed (s : PyStr)
  | noHostname
  | localhostBlocked
  | resolutionFailed
  | noAddresses
  | blockedIp
deriving DecidableEq

/-- Python `str.lower()` (ASCII). -/
def pyLower (s : PyStr) : PyStr := s.map Char.toLower

/-- `backend/validators.validate_scrape_url(url)`.  `urlparseO` models
`urlparse` (`none` = raised exception); `getaddrinfo` models
`socket.getaddrinfo(hostname, ...)` (`none` = `socket.gaierror`, otherwise
the resolved address list). -/
def validate_scrape_url (urlparseO : PyStr → Option ParsedForScrape)
    (getaddrinfo : PyStr → Option (List IPAddr)) (url : PyStr) :
    Except ScrapeUrlError PyStr :=
  if url = [] then .error .notNonEmptyString
  else
    match urlparseO (pyStrip url) with
    | Option.none => .error .invalidFormat
    | Option.some parsed =>
      if parsed.scheme ≠ "http".data ∧ parsed.scheme ≠ "https".data then
        .error (.schemeNotAllowed parsed.scheme)
      else
        match parsed.hostname with
        | Option.none => .error .noHostname
        | Option.some hostname =>
          if pyLower hostname = "localhost".data ∨
             (".localhost".data).isSuffixOf (pyLower hostname) then
            .error .localhostBlocked
          else
            match getaddrinfo hostname with
            | Option.none => .error .resolutionFailed
            | Option.some addrs =>
              if addrs.isEmpty then .error .noAddresses
              else if addrs.any is_ip_blocked then .error .blockedIp
              else .ok (pyStrip url)

/-- The IPv4 blocked ranges exactly as the specification lists them
(numeric interval form). -/
def inBlockedV4RangesSpec (a : Nat) : Prop :=
  (127 * 2 ^ 24 ≤ a ∧ a < 128 * 2 ^ 24) ∨
  (10 * 2 ^ 24 ≤ a ∧ a < 11 * 2 ^ 24) ∨
  (172 * 2 ^ 24 + 16 * 2 ^ 16 ≤ a ∧ a < 172 * 2 ^ 24 + 32 * 2 ^ 16) ∨
  (192 * 2 ^ 24 + 168 * 2 ^ 16 ≤ a ∧ a < 192 * 2 ^ 24 + 169 * 2 ^ 16) ∨
  (169 * 2 ^ 24 + 254 * 2 ^ 16 ≤ a ∧ a < 169 * 2 ^ 24 + 255 * 2 ^ 16) ∨
  a < 2 ^ 24

/-- The blocked ranges exactly as the specification lists them (numeric
interval form), used to check `is_ip_blocked` against the spec's words:
IPv4-mapped IPv6 addresses are unwrapped and checked against the IPv4
table, and an unparseable address string counts as blocked. -/
def inBlockedRangesSpec : IPAddr → Prop
  | .v4 a => inBlockedV4RangesSpec a
  | .v6 a =>
    (a / 2 ^ 32 = 0xffff ∧ inBlockedV4RangesSpec (a % 2 ^ 32)) ∨
    (a / 2 ^ 32 ≠ 0xffff ∧
      (a = 1 ∨
       (0xfc00 * 2 ^ 112 ≤ a ∧ a < 0xfe00 * 2 ^ 112) ∨
       (0xfe80 * 2 ^ 112 ≤ a ∧ a < 0xfec0 * 2 ^ 112)))
  | .invalid => True

/-! ## Crawl job runner (`job_manager.process_job`)

The per-URL loop with its timeout and cancellation checks.  Oracles:
`elapsedAt idx` is the elapsed wall-clock seconds observed at the start of
iteration `idx`, `cancelledAt idx` the cancellation flag polled there, and
`outcome idx` the result of fetching + extracting URL number `idx`
(everything from `fetch_url_with_session` through `process_queries`,
including a raised exception). -/

/-- Observable outcome of processing one URL inside the loop. -/
inductive UrlResult where
  | success (data : List (PyStr × PyVal))
  | failure (message : String)
  | raised (message : String)
deriving DecidableEq

/-- The per-URL record stored into the job's `results` dict. -/
inductive UrlRecord where
  | success (data : List (PyStr × PyVal))
  | failure (message : String)
  | error (message : String)
deriving DecidableEq

/-- What gets stored in `results[url]` for each outcome. -/
def recordOf : UrlResult → UrlRecord
  | .success data => .success data
  | .failure msg => .failure msg
  | .raised msg => .error msg

/-- Return value of `process_job` (the dict literals returned on each
path; on normal completion the returned dict *is* the results map). -/
inductive JobReturn where
  | cancelledBefore
  | timeout (elapsed : ℚ)
  | cancelledDuring
  | completed (results : List (PyStr × UrlRecord))
deriving DecidableEq

/-- `dictInsert` for the job results map. -/
def dictInsert' (k : PyStr) (v : UrlRecord) :
    List (PyStr × UrlRecord) → List (PyStr × UrlRecord)
  | [] => [(k, v)]
  | (k', v') :: rest => if k' = k then (k, v) :: rest else (k', v') :: dictInsert' k v rest

/-- The `for idx, url_item in enumerate(urls)` loop of `process_job`,
with the timeout and cancellation checks at the top of each iteration. -/
def processJobLoop (timeoutSeconds : ℚ) (elapsedAt : Nat → ℚ) (cancelledAt : Nat → Bool)
    (outcome : Nat → UrlResult) : Nat → List (PyStr × UrlRecord) → List PyStr → JobReturn
  | _, acc, [] => .completed acc
  | idx, acc, url :: rest =>
    if timeoutSeconds < elapsedAt idx then .timeout (elapsedAt idx)
    else if cancelledAt idx then .cancelledDuring
    else
      processJobLoop timeoutSeconds elapsedAt cancelledAt outcome (idx + 1)
        (dictInsert' url (recordOf (outcome idx)) acc) rest

/-- `job_manager.process_job` (control skeleton after URL fetch):
`cancelledBefore` models the pre-loop cancellation check. -/
def process_job (initiallyCancelled : Bool) (timeoutSeconds : ℚ) (elapsedAt : Nat → ℚ)
    (cancelledAt : Nat → Bool) (outcome : Nat → UrlResult) (urls : List PyStr) : JobReturn :=
  if initiallyCancelled then .cancelledBefore
  else processJobLoop timeoutSeconds elapsedAt cancelledAt outcome 0 [] urls

/-- The per-URL results contained in the return value of `process_job`:
only the `completed` branch carries any (the timeout / cancellation
dicts hold just `status` and `message`). -/
def JobReturn.returnedResults : JobReturn → Option (List (PyStr × UrlRecord))
  | .completed r => some r
  | _ => Option.none

/-- The results map accumulated at the moment the loop halts (a
specification-side observer following the same recursion as
`processJobLoop`; the source discards this value on the timeout and
cancellation paths). -/
def accumulatedAtHalt (timeoutSeconds : ℚ) (elapsedAt : Nat → ℚ) (cancelledAt : Nat → Bool)
    (outcome : Nat → UrlResult) : Nat → List (PyStr × UrlRecord) → List PyStr →
    List (PyStr × UrlRecord)
  | _, acc, [] => acc
  | idx, acc, url :: rest =>
    if timeoutSeconds < elapsedAt idx then acc
    else if cancelledAt idx then acc
    else
      accumulatedAtHalt timeoutSeconds elapsedAt cancelledAt outcome (idx + 1)
        (dictInsert' url (recordOf (outcome idx)) acc) rest

/-! ## `urllib.parse` model

`urlparse` / `urlunparse` as used by `InputValidator.validate_url` and by
the rate limiter's `get_domain`, translated from CPython's `urlsplit`,
`_splitparams` and `urlunsplit` (scheme detection, `//`-netloc splitting
delimited by `/?#`, fragment and query splitting, parameter splitting in
the last path segment; the WHATWG control-character stripping of newer
CPython is not modelled).  The `[`/`]` netloc consistency check raising
`ValueError` is modelled by an `Option` result. -/

/-- Python `s.split(c, 1)`: `some (before, after)` at the first occurrence
(with `c ∉ before`), `none` when absent. -/
def splitFirst (c : Char) : PyStr → Option (PyStr × PyStr)
  | [] => Option.none
  | a :: rest =>
    if a = c then some ([], rest)
    else (splitFirst c rest).map (fun p => (a :: p.1, p.2))

/-- Split at the *last* occurrence of `c` (used for `rfind('/')`). -/
def splitLast (c : Char) (s : PyStr) : Option (PyStr × PyStr) :=
  match splitFirst c s.reverse with
  | Option.none => Option.none
  | Option.some (a, b) => some (b.reverse, a.reverse)

/-- CPython `scheme_chars`. -/
def isSchemeChar (c : Char) : Bool :=
  c.isAlpha || c.isDigit || c = '+' || c = '-' || c = '.'

/-- `_splitnetloc(url, 2)`: the netloc runs to the first of `/?#`. -/
def notNetlocDelim (c : Char) : Bool := c ≠ '/' && c ≠ '?' && c ≠ '#'

/-- The 6-tuple produced by `urlparse`. -/
structure UrlParseResult where
  scheme : PyStr
  netloc : PyStr
  path : PyStr
  params : PyStr
  query : PyStr
  fragment : PyStr
deriving DecidableEq

/-- The scheme-detection step of `urlsplit`: split at the first `':'` when
the prefix is a well-formed scheme (nonempty, alphabetic first character,
scheme characters only), lowercasing it. -/
def splitScheme (url : PyStr) : PyStr × PyStr :=
  match splitFirst ':' url with
  | Option.some (pre, post) =>
    if pre ≠ [] ∧ pre.headI.isAlpha = true ∧ pre.all (fun c => isSchemeChar c) then
      (pre.map Char.toLower, post)
    else ([], url)
  | Option.none => ([], url)

/-- The netloc step of `urlsplit`: after a leading `'//'`, the netloc runs
to the first of `/?#`. -/
def splitNetlocPy (rest : PyStr) : PyStr × PyStr :=
  if rest.take 2 = ['/', '/'] then
    ((rest.drop 2).takeWhile notNetlocDelim, (rest.drop 2).dropWhile notNetlocDelim)
  else ([], rest)

/-- `url.split('#', 1)` (no-op when `'#'` is absent). -/
def splitFragmentPy (s : PyStr) : PyStr × PyStr :=
  match splitFirst '#' s with
  | Option.some (a, b) => (a, b)
  | Option.none => (s, [])

/-- `url.split('?', 1)` (no-op when `'?'` is absent). -/
def splitQueryPy (s : PyStr) : PyStr × PyStr :=
  match splitFirst '?' s with
  | Option.some (a, b) => (a, b)
  | Option.none => (s, [])

/-- The `[`/`]` consistency check of `urlsplit` that raises `ValueError`. -/
def bracketMismatch (netloc : PyStr) : Prop :=
  ('[' ∈ netloc ∧ ']' ∉ netloc) ∨ (']' ∈ netloc ∧ '[' ∉ netloc)

instance (netloc : PyStr) : Decidable (bracketMismatch netloc) := by
  unfold bracketMismatch
  infer_instance

/-- CPython `urlsplit(url)` (fixed `scheme=''`, `allow_fragments=True`);
`none` models the bracketed-netloc `ValueError`. -/
def urlsplitPy (url : PyStr) : Option (PyStr × PyStr × PyStr × PyStr × PyStr) :=
  if bracketMismatch (splitNetlocPy (splitScheme url).2).1 then Option.none
  else
    some ((splitScheme url).1,
          (splitNetlocPy (splitScheme url).2).1,
          (splitQueryPy (splitFragmentPy (splitNetlocPy (splitScheme url).2).2).1).1,
          (splitQueryPy (splitFragmentPy (splitNetlocPy (splitScheme url).2).2).1).2,
          (splitFragmentPy (splitNetlocPy (splitScheme url).2).2).2)

/-- CPython `_splitparams(url)`: the parameter component after the first
`';'` of the last path segment. -/
def splitparamsPy (p : PyStr) : PyStr × PyStr :=
  match splitLast '/' p with
  | Option.some (before, seg) =>
    (match splitFirst ';' seg with
     | Option.some (segA, segB) => (before ++ '/' :: segA, segB)
     | Option.none => (p, []))
  | Option.none =>
    (match splitFirst ';' p with
     | Option.some (a, b) => (a, b)
     | Option.none => (p, []))

/-- The `uses_params` scheme list of CPython `urlparse`. -/
def uses_params_schemes : List PyStr :=
  ["", "ftp", "hdl", "prospero", "http", "imap", "https", "shttp", "rtsp",
   "rtspu", "sip", "sips", "mms", "sftp", "tel"].map String.data

/-- CPython `urlparse(url)`. -/
def urlparsePy (url : PyStr) : Option UrlParseResult :=
  match urlsplitPy url with
  | Option.none => Option.none
  | Option.some (scheme, netloc, path0, query, fragment) =>
    if scheme ∈ uses_params_schemes ∧ ';' ∈ path0 then
      some ⟨scheme, netloc, (splitparamsPy path0).1, (splitparamsPy path0).2,
            query, fragment⟩
    else some ⟨scheme, netloc, path0, [], query, fragment⟩

/-- The netloc-joining step of `urlunsplit`: `'//' + netloc + url`, with a
`'/'` inserted before a relative path. -/
def netlocJoin (netloc url : PyStr) : PyStr :=
  if netloc ≠ [] ∨ (url ≠ [] ∧ url.take 2 = ['/', '/']) then
    '/' :: '/' :: netloc ++ (if url ≠ [] ∧ url.headI ≠ '/' then '/' :: url else url)
  else url

/-- `if scheme: url = scheme + ':' + url`. -/
def schemeJoin (scheme url1 : PyStr) : PyStr :=
  if scheme ≠ [] then scheme ++ ':' :: url1 else url1

/-- `if query: url = url + '?' + query`. -/
def queryJoin (url2 query : PyStr) : PyStr :=
  if query ≠ [] then url2 ++ '?' :: query else url2

/-- `if fragment: url = url + '#' + fragment`. -/
def fragmentJoin (url3 fragment : PyStr) : PyStr :=
  if fragment ≠ [] then url3 ++ '#' :: fragment else url3

/-- CPython `urlunsplit((scheme, netloc, url, query, fragment))`. -/
def urlunsplitPy (scheme netloc url query fragment : PyStr) : PyStr :=
  fragmentJoin (queryJoin (schemeJoin scheme (netlocJoin netloc url)) query) fragment

/-- CPython `urlunparse((scheme, netloc, url, params, query, fragment))`. -/
def urlunparsePy (scheme netloc path params query fragment : PyStr) : PyStr :=
  urlunsplitPy scheme netloc (if params ≠ [] then path ++ ';' :: params else path) query fragment

/-! ## URL validator (`InputValidator.validate_url`)

Identical in `validators.py` and `backend/validators.py`. -/

def MAX_URL_LENGTH : Nat := 2048

inductive UrlValidationError where
  | emptyUrl
  | tooLong
  | invalidFormat
  | badScheme
  | noHostname
deriving DecidableEq

/-- The `allowed_schemes` list of `validate_url`. -/
def allowedSchemes (allowSftp : Bool) : List PyStr :=
  if allowSftp then ["http".data, "https".data, "sftp".data]
  else ["http".data, "https".data]

/-- `InputValidator.validate_url(url, allow_sftp)`: validate, then
normalize via `urlunparse` with the fragment dropped and an empty path
replaced by `'/'`. -/
def validate_url (allowSftp : Bool) (url : PyStr) : Except UrlValidationError PyStr :=
  if url = [] then .error .emptyUrl
  else if MAX_URL_LENGTH < (pyStrip url).length then .error .tooLong
  else
    match urlparsePy (pyStrip url) with
    | Option.none => .error .invalidFormat
    | Option.some parsed =>
      if parsed.scheme ∉ allowedSchemes allowSftp then .error .badScheme
      else if parsed.netloc = [] then .error .noHostname
      else
        .ok (urlunparsePy parsed.scheme parsed.netloc
              (if parsed.path = [] then ['/'] else parsed.path)
              parsed.params parsed.query [])

/-! ## Domain rate limiter (`rate_limiter.DomainRateLimiter`)

Wall-clock time is modelled as an explicit rational `now` parameter; the
two `time.time()` calls of `wait_if_needed` are `now` and `now + waited`
(`time.sleep` taken as exact).  The `defaultdict(float)` state is a total
map with default `0`. -/

/-- `DomainRateLimiter.get_domain(url)`: `urlparse(url).netloc` (empty on
a parse error). -/
def get_domain (url : PyStr) : PyStr :=
  match urlparsePy url with
  | Option.some r => r.netloc
  | Option.none => []

/-- `DomainRateLimiter.wait_if_needed(url)` at time `now` with state
`last`: returns the seconds waited and the updated
`_last_request_time` map. -/
def wait_if_needed (minDelay : ℚ) (last : PyStr → ℚ) (url : PyStr) (now : ℚ) :
    ℚ × (PyStr → ℚ) :=
  if minDelay ≤ 0 then (0, last)
  else if now - last (get_domain url) < minDelay then
    (minDelay - (now - last (get_domain url)),
     Function.update last (get_domain url)
       (now + (minDelay - (now - last (get_domain url)))))
  else (0, Function.update last (get_domain url) now)

/-! ## Concrete instances used to evaluate the definitions -/

/-- Tier behaviour: Tier 1 raises `BlockingDetectionError`, every higher
tier raises `NotImplementedError` (the shipped behaviour of
`scrape_tier_3` / `scrape_tier_4`, and of `scrape_tier_2` without a proxy). -/
def c3attempt : Nat → TierOutcome := fun t =>
  if t = 1 then .blocked ["403_forbidden"] "Tier 1 blocked: 403_forbidden"
  else .notImplemented "Tier 2 (Proxy) requires proxy configuration."

/-- An extraction-library oracle that always raises. -/
def noneOracle : PyStr → PyStr → Option (List PyStr) := fun _ _ => Option.none

/-- `re.findall` restricted to literal patterns, as an oracle. -/
def litRegexOracle : PyStr → PyStr → Option (List PyStr) :=
  fun p t => some (reFindallLit p t)

/-- A PDF handler oracle returning `None`. -/
def nonePdfEval : PyStr → Query → PyVal := fun _ _ => PyVal.none

/-- A regex query with no match in content `"abc"`. -/
def c4query : Query := ⟨"q".data, "regex".data, "xyz".data, false⟩

/-- A regex query with exactly one match in content `"hello"`, `join=false`. -/
def c5query : Query := ⟨"q".data, "regex".data, "hello".data, false⟩

/-- Elapsed-time observations: 0 s at iteration 0, then 1000 s. -/
def c2elapsed : Nat → ℚ := fun idx => if idx = 0 then 0 else 1000

/-- Every URL fetch succeeds with an empty extraction map. -/
def c2outcome : Nat → UrlResult := fun _ => UrlResult.success []

/-- A 2048-character URL with an empty path. -/
def u2048 : PyStr := "http://".data ++ List.replicate 2041 'a'

/-- Its normalization: the empty path became `'/'`, giving 2049 characters. -/
def n2049 : PyStr := "http://".data ++ List.replicate 2041 'a' ++ ['/']

/-- A concrete `urlparse` oracle for the SSRF witness. -/
def c1urlparse : PyStr → Option ParsedForScrape := fun s =>
  if s = "https://example.com".data then some ⟨"https".data, some "example.com".data⟩
  else if s = "http://10.0.0.1/internal".data then
    some ⟨"http".data, some "10.0.0.1".data⟩
  else Option.none

/-- A concrete resolver: `example.com ↦ 93.184.216.34`,
`10.0.0.1 ↦ 10.0.0.1`. -/
def c1resolve : PyStr → Option (List IPAddr) := fun h =>
  if h = "example.com".data then
    some [.v4 (93 * 2 ^ 24 + 184 * 2 ^ 16 + 216 * 2 ^ 8 + 34)]
  else if h = "10.0.0.1".data then some [.v4 (10 * 2 ^ 24 + 1)]
  else Option.none

/-- The underlying library evaluation producing a match list for `q` on
`content`, whichever of the three HTML/JSON query types applies
(specification-side predicate shared by the extraction statements). -/
def evalMatches (xe re je : PyStr → PyStr → Option (List PyStr)) (c : PyStr) (q : Query)
    (results : List PyStr) : Prop :=
  (q.qtype = "xpath".data ∧ xe c q.query = some results) ∨
  (q.qtype = "regex".data ∧ re q.query c = some results) ∨
  (q.qtype = "jsonpath".data ∧ je c q.query = some results)

/-! # Theorems -/

/-! ## Query extraction: shared lemmas -/

theorem dictGet_single (k : PyStr) (v : PyVal) : dictGet k [(k, v)] = some v := by
  simp [dictGet]

/-- Evaluating `process_queries` on a single HTML/JSON query records the
`shapeJoin` of the produced match list under the query's name. -/
theorem process_queries_single (xe re je : PyStr → PyStr → Option (List PyStr))
    (pt : PyStr → PyStr) (pe : PyStr → Query → PyVal) (c : PyStr) (q : Query)
    (results : List PyStr) (hq : q.query ≠ [])
    (hm : evalMatches xe re je c q results) :
    process_queries xe re je pt pe false false c [q] =
      [(q.name, shapeJoin q.join results)] := by
  have hqe : q.query.isEmpty = false := by
    cases hq' : q.query with
    | nil => exact absurd hq' hq
    | cons a as => rfl
  unfold process_queries processQueryStep
  rcases hm with ⟨ht, he⟩ | ⟨ht, he⟩ | ⟨ht, he⟩ <;>
    simp [ht, he, hqe, hq, pdfTypes, dictInsert]

/-- `execute_query` applies its join/collapse shaping to the produced
match list. -/
theorem execute_query_shape (xe re je : PyStr → PyStr → Option (List PyStr))
    (c : PyStr) (q : Query) (results : List PyStr) (hq : q.query ≠ [])
    (hm : evalMatches xe re je c q results) :
    execute_query xe re je c q =
      (if q.join = true ∧ results ≠ [] then .str (joinPipe results)
       else
         match results with
         | [] => .none
         | r :: rest => if rest = [] then .str r else .pylist (r :: rest)) := by
  have hqe : q.query.isEmpty = false := by
    cases hq' : q.query with
    | nil => exact absurd hq' hq
    | cons a as => rfl
  unfold execute_query
  rcases hm with ⟨ht, he⟩ | ⟨ht, he⟩ | ⟨ht, he⟩ <;>
    · simp [ht, he, hqe]
      split
      · rfl
      · cases results <;> rfl

/-! ## Blocking detector -/

/-- `'minimal_content'` is never a status indicator. -/
theorem minimal_content_not_status (s : Nat) : "minimal_content" ∉ statusIndicators s := by
  unfold statusIndicators
  split
  · decide
  · split
    · decide
    · split <;> decide

/-- `'minimal_content'` is never a content indicator. -/
theorem minimal_content_not_content (t : PyStr) :
    "minimal_content" ∉ contentIndicators t := by
  intro h
  unfold contentIndicators at h
  split at h
  · simp at h
  · obtain ⟨p, hp, hp2⟩ := List.mem_map.mp h
    have hmem : p ∈ blocking_patterns := List.mem_of_mem_filter hp
    have hsnd : p.2 ∈ blocking_patterns.map Prod.snd := List.mem_map_of_mem _ hmem
    rw [hp2] at hsnd
    revert hsnd
    decide

/-- C9: `detect_blocking` counts a body shorter than 200 characters as an
indicator only when another indicator is present or the status code is at
least 400; a status-200 response whose body matches no challenge phrase is
not blocked; any 403/429/503 response is blocked. -/
theorem C9_detect_blocking (statusCode : Nat) (text : PyStr) :
    ("minimal_content" ∈ (detect_blocking statusCode text).2 →
      statusIndicators statusCode ++ contentIndicators text ≠ [] ∨ 400 ≤ statusCode) ∧
    (statusCode = 200 → contentIndicators text = [] →
      detect_blocking statusCode text = (false, [])) ∧
    (statusCode = 403 ∨ statusCode = 429 ∨ statusCode = 503 →
      (detect_blocking statusCode text).1 = true) := by
  refine ⟨?_, ?_, ?_⟩
  · intro h
    unfold detect_blocking at h
    simp only at h
    split at h
    · next hc => exact hc.2.2
    · exfalso
      rcases List.mem_append.mp h with h1 | h2
      · exact minimal_content_not_status _ h1
      · exact minimal_content_not_content _ h2
  · rintro rfl hc
    unfold detect_blocking
    simp only [hc]
    norm_num [statusIndicators]
  · rintro (rfl | rfl | rfl) <;>
      · unfold detect_blocking
        simp only [statusIndicators]
        norm_num
        split <;> simp

/-- C9 witness: a bodiless 403 response is blocked; a status-200 response
with the short body `"hi"` and no challenge phrase is not blocked. -/
theorem C9_detect_blocking_witness :
    (detect_blocking 403 []).1 = true ∧ detect_blocking 200 "hi".data = (false, []) := by
  constructor
  · exact (C9_detect_blocking 403 []).2.2 (Or.inl rfl)
  · exact (C9_detect_blocking 200 "hi".data).2.1 rfl (by decide)

/-! ## Tiered escalation controller -/

/-- C3 counterexample: Tier 1 is blocked and escalates; Tier 2 raises
`NotImplementedError` (Unavailable).  With `auto_escalate=true` and
`max_tier=4`, the claim says the next step is a Tier-3 attempt — but
`smart_scrape` terminates immediately with an exception, and no Tier-3
attempt appears in the escalation log. -/
theorem C3_counterexample :
    smart_scrape c3attempt 1 4 true =
      .raised ("This site requires Tier 2 (IP Rotation) which is not yet implemented. " ++
               "Tier 2 (Proxy) requires proxy configuration. " ++
               "Proxy integration is planned for Week 1.")
        ["Attempting Tier 1 (Lightweight)",
         "❌ Tier 1 blocked: 403_forbidden",
         "⬆️ Escalating to Tier 2",
         "Attempting Tier 2 (IP Rotation)",
         "⚠️ Tier 2 not implemented: Tier 2 (Proxy) requires proxy configuration."] ∧
    attemptingLine 3 ∉ (smart_scrape c3attempt 1 4 true).log := by
  constructor
  · rfl
  · decide

/-- C3 (amended): after a `Blocked` or `Error` outcome at tier `t` with
auto-escalation enabled and `t < max_tier`, the controller continues as
the loop at tier `t+1` (logging the escalation); after an `Unavailable`
(`NotImplementedError`) outcome it always terminates with the failure
detail, regardless of auto-escalation and remaining tiers; with
auto-escalation disabled or `t = max_tier`, `Blocked`/`Error` terminate
with the last failure detail. -/
theorem C3_escalation (attempt : Nat → TierOutcome) (auto : Bool) (maxTier fuel t : Nat)
    (log : List String) (ht : t ≤ maxTier) :
    (∀ ind msg, attempt t = .blocked ind msg → auto = true → t < maxTier →
      smartScrapeGo attempt auto maxTier (fuel + 1) t log =
        smartScrapeGo attempt auto maxTier fuel (t + 1)
          (log ++ [attemptingLine t, blockedLine t ind, escalatingLine (t + 1)])) ∧
    (∀ msg, attempt t = .exc msg → auto = true → t < maxTier →
      smartScrapeGo attempt auto maxTier (fuel + 1) t log =
        smartScrapeGo attempt auto maxTier fuel (t + 1)
          (log ++ [attemptingLine t, errorLine t msg, escalatingErrorLine (t + 1)])) ∧
    (∀ msg, attempt t = .notImplemented msg →
      smartScrapeGo attempt auto maxTier (fuel + 1) t log =
        .raised (notImplementedMsg t msg)
          (log ++ [attemptingLine t, notImplementedLine t msg])) ∧
    (∀ ind msg, attempt t = .blocked ind msg → (auto = false ∨ t = maxTier) →
      smartScrapeGo attempt auto maxTier (fuel + 1) t log =
        .raised (tierFailedMsg t msg) (log ++ [attemptingLine t, blockedLine t ind])) ∧
    (∀ msg, attempt t = .exc msg → (auto = false ∨ t = maxTier) →
      smartScrapeGo attempt auto maxTier (fuel + 1) t log =
        .raised msg (log ++ [attemptingLine t, errorLine t msg])) := by
  have hnot : ¬ maxTier < t := not_lt.mpr ht
  refine ⟨?_, ?_, ?_, ?_, ?_⟩
  · intro ind msg hat hauto hlt
    conv_lhs => rw [smartScrapeGo]
    simp only [if_neg hnot, hat, hauto]
    rw [if_neg (by simp [not_le.mpr hlt])]
    simp [List.append_assoc]
  · intro msg hat hauto hlt
    conv_lhs => rw [smartScrapeGo]
    simp only [if_neg hnot, hat, hauto]
    rw [if_neg (by simp [not_le.mpr hlt])]
    simp [List.append_assoc]
  · intro msg hat
    conv_lhs => rw [smartScrapeGo]
    simp only [if_neg hnot, hat]
    simp [List.append_assoc]
  · intro ind msg hat hterm
    conv_lhs => rw [smartScrapeGo]
    simp only [if_neg hnot, hat]
    rw [if_pos]
    · simp [List.append_assoc]
    · rcases hterm with h | h
      · exact Or.inl h
      · exact Or.inr (le_of_eq h.symm)
  · intro msg hat hterm
    conv_lhs => rw [smartScrapeGo]
    simp only [if_neg hnot, hat]
    rw [if_pos]
    · simp [List.append_assoc]
    · rcases hterm with h | h
      · exact Or.inl h
      · exact Or.inr (le_of_eq h.symm)

/-- C3 witness: a blocked Tier-1 attempt with `auto_escalate=true` and
`max_tier=2` continues as the loop at Tier 2. -/
theorem C3_escalation_witness :
    smartScrapeGo c3attempt true 2 2 1 [] =
      smartScrapeGo c3attempt true 2 1 2
        [attemptingLine 1, blockedLine 1 ["403_forbidden"], escalatingLine 2] := by
  have h := (C3_escalation c3attempt true 2 1 1 [] (by decide)).1
    ["403_forbidden"] "Tier 1 blocked: 403_forbidden" (by decide) rfl (by decide)
  simpa using h

/-! ## Domain rate limiter -/

/-- C8: with `min_delay = d > 0`, a call whose domain's elapsed time `t`
is below `d` waits exactly `d - t` and records `last + d` as the new
timestamp, so the next request to that domain never starts before
`last_request_time + d`; entries of other domains are untouched, and the
wait depends only on the URL's own domain's timestamp. -/
theorem C8_wait_if_needed (minDelay : ℚ) (last : PyStr → ℚ) (url : PyStr) (now : ℚ) :
    (0 < minDelay → now - last (get_domain url) < minDelay →
      (wait_if_needed minDelay last url now).1 =
        minDelay - (now - last (get_domain url)) ∧
      (wait_if_needed minDelay last url now).2 (get_domain url) =
        last (get_domain url) + minDelay) ∧
    (0 < minDelay →
      last (get_domain url) + minDelay ≤ now + (wait_if_needed minDelay last url now).1) ∧
    (∀ d, d ≠ get_domain url → (wait_if_needed minDelay last url now).2 d = last d) ∧
    (∀ last' : PyStr → ℚ, last' (get_domain url) = last (get_domain url) →
      (wait_if_needed minDelay last' url now).1 =
        (wait_if_needed minDelay last url now).1) := by
  refine ⟨?_, ?_, ?_, ?_⟩
  · intro hd helapsed
    unfold wait_if_needed
    rw [if_neg (not_le.mpr hd), if_pos helapsed]
    constructor
    · rfl
    · simp only [Function.update_same]
      ring
  · intro hd
    unfold wait_if_needed
    rw [if_neg (not_le.mpr hd)]
    split
    · simp only
      linarith
    · next hge =>
      simp only
      linarith [not_lt.mp hge]
  · intro d hd
    unfold wait_if_needed
    split
    · rfl
    · split <;> simp [Function.update_noteq hd]
  · intro last' hsame
    unfold wait_if_needed
    split
    · rfl
    · rw [hsame]
      split <;> rfl

/-- C8 witness: `d = 1`, all timestamps 0, a call at `now = 1/2` for
`http://a/x` waits `1/2` and records `1`; the entry of domain `b` is
unchanged and the wait is insensitive to domain `b`'s timestamp. -/
theorem C8_wait_if_needed_witness :
    (wait_if_needed 1 (fun _ => 0) "http://a/x".data (1/2)).1 = 1/2 ∧
    (wait_if_needed 1 (fun _ => 0) "http://a/x".data (1/2)).2 (get_domain "http://a/x".data) = 1 ∧
    (wait_if_needed 1 (fun _ => 0) "http://a/x".data (1/2)).2 "b".data = 0 := by
  have h := C8_wait_if_needed 1 (fun _ => 0) "http://a/x".data (1/2)
  obtain ⟨h1, h2⟩ := h.1 (by norm_num) (by norm_num)
  refine ⟨?_, ?_, ?_⟩
  · rw [h1]; norm_num
  · rw [h2]; norm_num
  · exact h.2.2.1 "b".data (by decide)

/-! ## Regex safety validator -/

/-- C6: `validate_regex_pattern` rejects with a length error every pattern
whose stripped form exceeds 500 characters, and accepts every compilable
pattern of exactly 500 stripped characters that passes the remaining
safety checks. -/
theorem C6_regex_length_bound (compiles : PyStr → Bool) (pattern : PyStr) :
    (MAX_REGEX_PATTERN_LENGTH < (pyStrip pattern).length →
      validate_regex_pattern compiles pattern = .error .tooLong) ∧
    ((pyStrip pattern).length = 500 →
      compiles (pyStrip pattern) = true →
      hasNestedQuantifier (pyStrip pattern) = false →
      hasOverlappingAlternation (pyStrip pattern) = false →
      hasQuantifiedAlternation (pyStrip pattern) = false →
      countQuantifiers (pyStrip pattern) ≤ MAX_REGEX_QUANTIFIERS →
      validate_regex_pattern compiles pattern = .ok (pyStrip pattern)) := by
  constructor
  · intro h
    have hne : pattern.isEmpty = false := by
      cases pattern with
      | nil => revert h; decide
      | cons c cs => rfl
    unfold validate_regex_pattern
    rw [hne]
    simp only [Bool.false_eq_true, if_false, if_pos h]
  · intro hlen hc hn ho hq hcount
    have hne : pattern.isEmpty = false := by
      cases pattern with
      | nil => revert hlen; decide
      | cons c cs => rfl
    unfold validate_regex_pattern
    rw [hne, hc, hn, ho, hq]
    simp only [Bool.false_eq_true, if_false]
    rw [if_neg (by rw [hlen]; unfold MAX_REGEX_PATTERN_LENGTH; omega),
        if_neg (by simp), if_neg (not_lt.mpr hcount)]

/-- C6 witness: 500 `'a'`s are accepted, 501 are rejected as too long. -/
theorem C6_regex_length_bound_witness :
    validate_regex_pattern (fun _ => true) (List.replicate 501 'a') = .error .tooLong ∧
    validate_regex_pattern (fun _ => true) (List.replicate 500 'a') =
      .ok (List.replicate 500 'a') := by
  constructor
  · exact (C6_regex_length_bound (fun _ => true) (List.replicate 501 'a')).1 (by decide)
  · exact (C6_regex_length_bound (fun _ => true) (List.replicate 500 'a')).2
      (by decide) rfl (by decide) (by decide) (by decide) (by decide)

/-! ## XPath safety validator -/

/-- C7: `validate_xpath_query` rejects every expression containing a
function call whose name is outside the whitelist — in particular
`document('x.xml')` — and accepts the whitelisted, balanced
`//div[contains(@class,'a')]`. -/
theorem C7_xpath_whitelist (xpath f : PyStr) :
    (f ∈ findFunctions (pyStrip xpath) → f ∉ ALLOWED_XPATH_FUNCTIONS →
      (validate_xpath_query xpath).isOk = false) ∧
    (validate_xpath_query "document('x.xml')".data =
      .error (.disallowedFunction "document".data)) ∧
    (validate_xpath_query "//div[contains(@class,'a')]".data =
      .ok "//div[contains(@class,'a')]".data) := by
  refine ⟨?_, by rfl, by rfl⟩
  intro hf hnal
  unfold validate_xpath_query
  split
  · rfl
  · split
    · rfl
    · have hne : (findFunctions (pyStrip xpath)).find?
          (fun g => decide (g ∉ ALLOWED_XPATH_FUNCTIONS)) ≠ Option.none := by
        intro hnone
        have := List.find?_eq_none.mp hnone f hf
        simp only [decide_eq_true_eq] at this
        exact this hnal
      match hm : (findFunctions (pyStrip xpath)).find?
          (fun g => decide (g ∉ ALLOWED_XPATH_FUNCTIONS)) with
      | Option.some g => simp only [hm]; rfl
      | Option.none => exact absurd hm hne

/-- C7 witness: the theorem applied to `document('x.xml')` and its
non-whitelisted function name `document`. -/
theorem C7_xpath_whitelist_witness :
    (validate_xpath_query "document('x.xml')".data).isOk = false := by
  exact (C7_xpath_whitelist "document('x.xml')".data "document".data).1
    (by decide) (by decide)

/-! ## Query extraction: join semantics (C4) -/

/-- C4 counterexample: a regex query with no match and `join=false`; the
claim says the recorded result is null, but `process_queries` records the
empty *list*. -/
theorem C4_counterexample :
    dictGet "q".data (process_queries noneOracle litRegexOracle noneOracle id nonePdfEval
        false false "abc".data [c4query]) = some (.pylist []) ∧
    dictGet "q".data (process_queries noneOracle litRegexOracle noneOracle id nonePdfEval
        false false "abc".data [c4query]) ≠ some PyVal.none := by
  constructor
  · rfl
  · decide

/-- C4 (amended): with `join=true` and at least one match both code paths
produce the `'|'`-joined string; with no matches `execute_query` returns
null while `process_queries` records the empty list; with `join=false`,
`execute_query` collapses a single match to the bare string (the list only
for two or more matches) while `process_queries` always records the full
match list. -/
theorem C4_join_semantics (xe re je : PyStr → PyStr → Option (List PyStr))
    (pt : PyStr → PyStr) (pe : PyStr → Query → PyVal) (c : PyStr) (q : Query)
    (results : List PyStr) (hq : q.query ≠ [])
    (hm : evalMatches xe re je c q results) :
    (q.join = true → results ≠ [] →
      execute_query xe re je c q = .str (joinPipe results) ∧
      dictGet q.name (process_queries xe re je pt pe false false c [q]) =
        some (.str (joinPipe results))) ∧
    (results = [] →
      execute_query xe re je c q = .none ∧
      dictGet q.name (process_queries xe re je pt pe false false c [q]) =
        some (.pylist [])) ∧
    (∀ r, results = [r] → q.join = false →
      execute_query xe re je c q = .str r ∧
      dictGet q.name (process_queries xe re je pt pe false false c [q]) =
        some (.pylist [r])) ∧
    (q.join = false → 1 < results.length →
      execute_query xe re je c q = .pylist results ∧
      dictGet q.name (process_queries xe re je pt pe false false c [q]) =
        some (.pylist results)) := by
  have hex := execute_query_shape xe re je c q results hq hm
  have hpq := process_queries_single xe re je pt pe c q results hq hm
  refine ⟨?_, ?_, ?_, ?_⟩
  · intro hj hne
    constructor
    · rw [hex, if_pos ⟨hj, hne⟩]
    · rw [hpq, dictGet_single]
      unfold shapeJoin
      rw [if_pos ⟨hj, hne⟩]
  · rintro rfl
    constructor
    · rw [hex]
      simp
    · rw [hpq, dictGet_single]
      unfold shapeJoin
      simp
  · rintro r rfl hj
    constructor
    · rw [hex]
      simp [hj]
    · rw [hpq, dictGet_single]
      unfold shapeJoin
      simp [hj]
  · intro hj hlen
    obtain ⟨r1, rest1, rfl⟩ : ∃ r1 rest1, results = r1 :: rest1 := by
      cases results with
      | nil => simp at hlen
      | cons a as => exact ⟨a, as, rfl⟩
    obtain ⟨r2, rest2, rfl⟩ : ∃ r2 rest2, rest1 = r2 :: rest2 := by
      cases rest1 with
      | nil => simp at hlen
      | cons a as => exact ⟨a, as, rfl⟩
    constructor
    · rw [hex]
      simp [hj]
    · rw [hpq, dictGet_single]
      unfold shapeJoin
      simp [hj]

/-- C4 witness: the amended statement evaluated on concrete regex queries
(`join=true` with two matches; no matches; one match with `join=false`;
two matches with `join=false`). -/
theorem C4_join_semantics_witness :
    execute_query noneOracle litRegexOracle noneOracle "aXbX".data
      ⟨"q".data, "regex".data, "X".data, true⟩ =
      .str (joinPipe ["X".data, "X".data]) ∧
    execute_query noneOracle litRegexOracle noneOracle "abc".data c4query = .none ∧
    execute_query noneOracle litRegexOracle noneOracle "hello".data c5query =
      .str "hello".data ∧
    execute_query noneOracle litRegexOracle noneOracle "aXbX".data
      ⟨"q".data, "regex".data, "X".data, false⟩ =
      .pylist ["X".data, "X".data] := by
  refine ⟨?_, ?_, ?_, ?_⟩
  · exact ((C4_join_semantics noneOracle litRegexOracle noneOracle id nonePdfEval
      "aXbX".data ⟨"q".data, "regex".data, "X".data, true⟩ ["X".data, "X".data]
      (by decide) (Or.inr (Or.inl ⟨rfl, by decide⟩))).1 rfl (by decide)).1
  · exact ((C4_join_semantics noneOracle litRegexOracle noneOracle id nonePdfEval
      "abc".data c4query [] (by decide) (Or.inr (Or.inl ⟨rfl, by decide⟩))).2.1 rfl).1
  · exact ((C4_join_semantics noneOracle litRegexOracle noneOracle id nonePdfEval
      "hello".data c5query ["hello".data] (by decide)
      (Or.inr (Or.inl ⟨rfl, by decide⟩))).2.2.1 "hello".data rfl rfl).1
  · exact ((C4_join_semantics noneOracle litRegexOracle noneOracle id nonePdfEval
      "aXbX".data ⟨"q".data, "regex".data, "X".data, false⟩ ["X".data, "X".data]
      (by decide) (Or.inr (Or.inl ⟨rfl, by decide⟩))).2.2.2 rfl (by decide)).1

/-! ## Query extraction: path equivalence (C5) -/

/-- C5 counterexample: the same content (`"hello"`) and the same regex
query with exactly one match and `join=false`: `execute_query` returns the
bare string while `process_queries` records the singleton list — the two
code paths disagree. -/
theorem C5_counterexample :
    execute_query noneOracle litRegexOracle noneOracle "hello".data c5query =
      .str "hello".data ∧
    dictGet "q".data (process_queries noneOracle litRegexOracle noneOracle id nonePdfEval
        false false "hello".data [c5query]) = some (.pylist ["hello".data]) ∧
    some (execute_query noneOracle litRegexOracle noneOracle "hello".data c5query) ≠
      dictGet "q".data (process_queries noneOracle litRegexOracle noneOracle id nonePdfEval
        false false "hello".data [c5query]) := by
  refine ⟨rfl, rfl, by decide⟩

/-- C5 (amended): for the same content and single HTML/JSON query, the two
extraction code paths agree whenever `join=true` with at least one match,
and whenever `join=false` with two or more matches; they disagree on
exactly one match with `join=false` (bare string vs singleton list) and on
no matches (null vs empty list). -/
theorem C5_extraction_agreement (xe re je : PyStr → PyStr → Option (List PyStr))
    (pt : PyStr → PyStr) (pe : PyStr → Query → PyVal) (c : PyStr) (q : Query)
    (results : List PyStr) (hq : q.query ≠ [])
    (hm : evalMatches xe re je c q results) :
    (q.join = true → results ≠ [] →
      some (execute_query xe re je c q) =
        dictGet q.name (process_queries xe re je pt pe false false c [q])) ∧
    (q.join = false → 1 < results.length →
      some (execute_query xe re je c q) =
        dictGet q.name (process_queries xe re je pt pe false false c [q])) ∧
    (∀ r, results = [r] → q.join = false →
      execute_query xe re je c q = .str r ∧
      dictGet q.name (process_queries xe re je pt pe false false c [q]) =
        some (.pylist [r]) ∧
      PyVal.str r ≠ PyVal.pylist [r]) ∧
    (results = [] →
      execute_query xe re je c q = .none ∧
      dictGet q.name (process_queries xe re je pt pe false false c [q]) =
        some (.pylist []) ∧
      PyVal.none ≠ PyVal.pylist []) := by
  have hex := execute_query_shape xe re je c q results hq hm
  have hpq := process_queries_single xe re je pt pe c q results hq hm
  refine ⟨?_, ?_, ?_, ?_⟩
  · intro hj hne
    rw [hex, hpq, dictGet_single, if_pos ⟨hj, hne⟩]
    unfold shapeJoin
    rw [if_pos ⟨hj, hne⟩]
  · intro hj hlen
    obtain ⟨r1, rest1, rfl⟩ : ∃ r1 rest1, results = r1 :: rest1 := by
      cases results with
      | nil => simp at hlen
      | cons a as => exact ⟨a, as, rfl⟩
    obtain ⟨r2, rest2, rfl⟩ : ∃ r2 rest2, rest1 = r2 :: rest2 := by
      cases rest1 with
      | nil => simp at hlen
      | cons a as => exact ⟨a, as, rfl⟩
    rw [hex, hpq, dictGet_single]
    unfold shapeJoin
    simp [hj]
  · rintro r rfl hj
    refine ⟨?_, ?_, by simp⟩
    · rw [hex]
      simp [hj]
    · rw [hpq, dictGet_single]
      unfold shapeJoin
      simp [hj]
  · rintro rfl
    refine ⟨?_, ?_, by simp⟩
    · rw [hex]
      simp
    · rw [hpq, dictGet_single]
      unfold shapeJoin
      simp

/-- C5 witness: the agreement statement evaluated on concrete regex
queries (two matches joined; two matches unjoined; the two disagreement
cases). -/
theorem C5_extraction_agreement_witness :
    some (execute_query noneOracle litRegexOracle noneOracle "aXbX".data
        ⟨"q".data, "regex".data, "X".data, true⟩) =
      dictGet "q".data (process_queries noneOracle litRegexOracle noneOracle id nonePdfEval
        false false "aXbX".data [⟨"q".data, "regex".data, "X".data, true⟩]) ∧
    some (execute_query noneOracle litRegexOracle noneOracle "aXbX".data
        ⟨"q".data, "regex".data, "X".data, false⟩) =
      dictGet "q".data (process_queries noneOracle litRegexOracle noneOracle id nonePdfEval
        false false "aXbX".data [⟨"q".data, "regex".data, "X".data, false⟩]) := by
  constructor
  · exact (C5_extraction_agreement noneOracle litRegexOracle noneOracle id nonePdfEval
      "aXbX".data ⟨"q".data, "regex".data, "X".data, true⟩ ["X".data, "X".data]
      (by decide) (Or.inr (Or.inl ⟨rfl, by decide⟩))).1 rfl (by decide)
  · exact (C5_extraction_agreement noneOracle litRegexOracle noneOracle id nonePdfEval
      "aXbX".data ⟨"q".data, "regex".data, "X".data, false⟩ ["X".data, "X".data]
      (by decide) (Or.inr (Or.inl ⟨rfl, by decide⟩))).2.1 rfl (by decide)

/-! ## SSRF protection -/

instance (a : Nat) : Decidable (inBlockedV4RangesSpec a) := by
  unfold inBlockedV4RangesSpec
  infer_instance

instance (a : IPAddr) : Decidable (inBlockedRangesSpec a) := by
  cases a <;> unfold inBlockedRangesSpec <;> infer_instance

/-- `_is_ip_blocked` blocks exactly the addresses in the specification's
blocked ranges. -/
theorem is_ip_blocked_iff_spec (a : IPAddr) :
    is_ip_blocked a = true ↔ inBlockedRangesSpec a := by
  cases a with
  | v4 n =>
    simp only [is_ip_blocked, inBlockedRangesSpec, inBlockedV4RangesSpec,
      BLOCKED_IPV4_NETWORKS, ipv4InNetwork, List.any_cons, List.any_nil,
      Bool.or_eq_true, decide_eq_true_eq, Bool.false_eq_true, or_false]
    norm_num
    omega
  | v6 n =>
    by_cases h : n / 2 ^ 32 = 0xffff
    · simp only [is_ip_blocked, ipv4Mapped, if_pos h, inBlockedRangesSpec,
        inBlockedV4RangesSpec, BLOCKED_IPV4_NETWORKS, ipv4InNetwork, List.any_cons,
        List.any_nil, Bool.or_eq_true, decide_eq_true_eq, Bool.false_eq_true, or_false]
      norm_num [h]
      omega
    · simp only [is_ip_blocked, ipv4Mapped, if_neg h, inBlockedRangesSpec,
        BLOCKED_IPV6_NETWORKS, ipv6InNetwork, List.any_cons, List.any_nil,
        Bool.or_eq_true, decide_eq_true_eq, Bool.false_eq_true, or_false]
      norm_num [h]
      omega
  | invalid => simp [is_ip_blocked, inBlockedRangesSpec]

/-- C1: if the hostname of the URL resolves to at least one address inside
the specification's blocked ranges, `validate_scrape_url` rejects (raises
`ValidationError`); if every resolved address is outside them (e.g. only
`93.184.216.34`) and the scheme/hostname checks pass, it returns the
stripped URL. -/
theorem C1_validate_scrape_url (up : PyStr → Option ParsedForScrape)
    (ga : PyStr → Option (List IPAddr)) (url : PyStr) (p : ParsedForScrape)
    (host : PyStr) (addrs : List IPAddr) :
    (up (pyStrip url) = some p → p.hostname = some host → ga host = some addrs →
      (∃ a ∈ addrs, inBlockedRangesSpec a) →
      (validate_scrape_url up ga url).isOk = false) ∧
    (url ≠ [] → up (pyStrip url) = some p →
      (p.scheme = "http".data ∨ p.scheme = "https".data) →
      p.hostname = some host →
      ¬ (pyLower host = "localhost".data ∨
         (".localhost".data).isSuffixOf (pyLower host)) →
      ga host = some addrs → addrs ≠ [] →
      (∀ a ∈ addrs, ¬ inBlockedRangesSpec a) →
      validate_scrape_url up ga url = .ok (pyStrip url)) := by
  constructor
  · intro hup hh hga ⟨a, hmem, hspec⟩
    by_cases hurl : url = []
    · simp [validate_scrape_url, hurl, Except.isOk, Except.toBool]
    · unfold validate_scrape_url
      rw [if_neg hurl, hup]
      dsimp only
      by_cases hs : p.scheme ≠ "http".data ∧ p.scheme ≠ "https".data
      · rw [if_pos hs]; rfl
      · rw [if_neg hs, hh]
        dsimp only
        by_cases hloc : pyLower host = "localhost".data ∨
            (".localhost".data).isSuffixOf (pyLower host)
        · rw [if_pos hloc]; rfl
        · rw [if_neg hloc, hga]
          dsimp only
          by_cases hemp : addrs.isEmpty
          · rw [if_pos hemp]; rfl
          · rw [if_neg hemp, if_pos]
            · rfl
            · exact List.any_eq_true.mpr
                ⟨a, hmem, (is_ip_blocked_iff_spec a).mpr hspec⟩
  · intro hurl hup hs hh hloc hga hne hpub
    unfold validate_scrape_url
    rw [if_neg hurl, hup]
    dsimp only
    rw [if_neg (by
        rcases hs with h | h
        · intro hc; exact hc.1 h
        · intro hc; exact hc.2 h),
      hh]
    dsimp only
    rw [if_neg hloc, hga]
    dsimp only
    rw [if_neg (by
        cases addrs with
        | nil => exact absurd rfl hne
        | cons a as => simp),
      if_neg (by
        intro hany
        obtain ⟨a, hmem, hbl⟩ := List.any_eq_true.mp hany
        exact hpub a hmem ((is_ip_blocked_iff_spec a).mp hbl))]

/-- C1 witness: `https://example.com` resolving only to `93.184.216.34` is
accepted; `http://10.0.0.1/internal` resolving to `10.0.0.1` is rejected. -/
theorem C1_validate_scrape_url_witness :
    validate_scrape_url c1urlparse c1resolve "https://example.com".data =
      .ok "https://example.com".data ∧
    (validate_scrape_url c1urlparse c1resolve "http://10.0.0.1/internal".data).isOk =
      false := by
  constructor
  · exact (C1_validate_scrape_url c1urlparse c1resolve "https://example.com".data
      ⟨"https".data, some "example.com".data⟩ "example.com".data
      [.v4 (93 * 2 ^ 24 + 184 * 2 ^ 16 + 216 * 2 ^ 8 + 34)]).2
      (by decide) (by decide) (Or.inr rfl) rfl (by decide) (by decide) (by decide)
      (by decide)
  · exact (C1_validate_scrape_url c1urlparse c1resolve "http://10.0.0.1/internal".data
      ⟨"http".data, some "10.0.0.1".data⟩ "10.0.0.1".data
      [.v4 (10 * 2 ^ 24 + 1)]).1
      (by decide) rfl (by decide) ⟨.v4 (10 * 2 ^ 24 + 1), by decide, by decide⟩

/-! ## Crawl job runner -/

/-- If the first halting condition observed is a timeout at iteration
`idx + k`, the loop returns `timeout` (a generalized-index loop lemma). -/
theorem processJobLoop_timeout (T : ℚ) (el : Nat → ℚ) (ca : Nat → Bool)
    (oc : Nat → UrlResult) :
    ∀ (urls : List PyStr) (k idx : Nat) (acc : List (PyStr × UrlRecord)),
      k < urls.length → (∀ j, j < k → el (idx + j) ≤ T ∧ ca (idx + j) = false) →
      T < el (idx + k) →
      processJobLoop T el ca oc idx acc urls = .timeout (el (idx + k)) := by
  intro urls
  induction urls with
  | nil =>
    intro k idx acc hk
    simp at hk
  | cons u rest ih =>
    intro k idx acc hk hpre hT
    cases k with
    | zero =>
      unfold processJobLoop
      rw [if_pos (by simpa using hT), Nat.add_zero]
    | succ k' =>
      have h0 := hpre 0 (Nat.succ_pos _)
      unfold processJobLoop
      rw [if_neg (by simpa using not_lt.mpr h0.1), if_neg (by simpa using h0.2)]
      have heq : idx + (k' + 1) = (idx + 1) + k' := by omega
      rw [heq]
      rw [heq] at hT
      refine ih k' (idx + 1) _ (by simpa using hk) ?_ hT
      intro j hj
      have := hpre (j + 1) (by omega)
      have heq2 : idx + (j + 1) = (idx + 1) + j := by omega
      rwa [heq2] at this

/-- If the first halting condition observed is the cancellation flag at
iteration `idx + k`, the loop returns `cancelledDuring`. -/
theorem processJobLoop_cancelled (T : ℚ) (el : Nat → ℚ) (ca : Nat → Bool)
    (oc : Nat → UrlResult) :
    ∀ (urls : List PyStr) (k idx : Nat) (acc : List (PyStr × UrlRecord)),
      k < urls.length → (∀ j, j < k → el (idx + j) ≤ T ∧ ca (idx + j) = false) →
      el (idx + k) ≤ T → ca (idx + k) = true →
      processJobLoop T el ca oc idx acc urls = .cancelledDuring := by
  intro urls
  induction urls with
  | nil =>
    intro k idx acc hk
    simp at hk
  | cons u rest ih =>
    intro k idx acc hk hpre hel hca
    cases k with
    | zero =>
      unfold processJobLoop
      rw [if_neg (by simpa using not_lt.mpr hel), if_pos (by simpa using hca)]
    | succ k' =>
      have h0 := hpre 0 (Nat.succ_pos _)
      unfold processJobLoop
      rw [if_neg (by simpa using not_lt.mpr h0.1), if_neg (by simpa using h0.2)]
      have heq : idx + (k' + 1) = (idx + 1) + k' := by omega
      rw [heq] at hel hca
      refine ih k' (idx + 1) _ (by simpa using hk) ?_ hel hca
      intro j hj
      have := hpre (j + 1) (by omega)
      have heq2 : idx + (j + 1) = (idx + 1) + j := by omega
      rwa [heq2] at this

/-- C2 counterexample: two URLs, the first processed successfully, then a
timeout observed before the second.  The claim says the `Timeout` return
value contains the accumulated partial results — but `process_job` returns
only the status/message dict (no results), although one per-URL result had
been accumulated. -/
theorem C2_counterexample :
    process_job false 900 c2elapsed (fun _ => false) c2outcome
      ["u1".data, "u2".data] = .timeout 1000 ∧
    (process_job false 900 c2elapsed (fun _ => false) c2outcome
        ["u1".data, "u2".data]).returnedResults = Option.none ∧
    accumulatedAtHalt 900 c2elapsed (fun _ => false) c2outcome 0 []
      ["u1".data, "u2".data] = [("u1".data, .success [])] := by
  refine ⟨by decide, by decide, by decide⟩

/-- C2 (amended): when the loop halts because the elapsed time exceeds the
timeout budget (or because the cancellation flag is set), `process_job`
returns the bare `Timeout` (resp. `Cancelled`) status dict; the per-URL
results accumulated before the halt are *not* part of the return value
(they are discarded; only the per-URL statuses written incrementally via
`update_url_status` survive). -/
theorem C2_partial_results (T : ℚ) (el : Nat → ℚ) (ca : Nat → Bool) (oc : Nat → UrlResult)
    (urls : List PyStr) (k : Nat) :
    (k < urls.length → (∀ j, j < k → el j ≤ T ∧ ca j = false) → T < el k →
      process_job false T el ca oc urls = .timeout (el k) ∧
      (process_job false T el ca oc urls).returnedResults = Option.none) ∧
    (k < urls.length → (∀ j, j < k → el j ≤ T ∧ ca j = false) → el k ≤ T → ca k = true →
      process_job false T el ca oc urls = .cancelledDuring ∧
      (process_job false T el ca oc urls).returnedResults = Option.none) := by
  constructor
  · intro hk hpre hT
    have h := processJobLoop_timeout T el ca oc urls k 0 [] hk
      (by intro j hj; simpa using hpre j hj) (by simpa using hT)
    have hpj : process_job false T el ca oc urls = .timeout (el k) := by
      unfold process_job
      rw [if_neg (by simp)]
      simpa using h
    exact ⟨hpj, by rw [hpj]; rfl⟩
  · intro hk hpre hel hca
    have h := processJobLoop_cancelled T el ca oc urls k 0 [] hk
      (by intro j hj; simpa using hpre j hj) (by simpa using hel) (by simpa using hca)
    have hpj : process_job false T el ca oc urls = .cancelledDuring := by
      unfold process_job
      rw [if_neg (by simp)]
      exact h
    exact ⟨hpj, by rw [hpj]; rfl⟩

/-- C2 witness: the amended statement applied to the concrete two-URL job
that times out before its second URL. -/
theorem C2_partial_results_witness :
    process_job false 900 c2elapsed (fun _ => false) c2outcome
      ["u1".data, "u2".data] = .timeout (c2elapsed 1) ∧
    (process_job false 900 c2elapsed (fun _ => false) c2outcome
        ["u1".data, "u2".data]).returnedResults = Option.none := by
  exact (C2_partial_results 900 c2elapsed (fun _ => false) c2outcome
      ["u1".data, "u2".data] 1).1 (by decide)
    (by intro j hj; interval_cases j; exact ⟨by norm_num [c2elapsed], rfl⟩)
    (by norm_num [c2elapsed])

/-! ## `urllib.parse` model: split lemmas -/

theorem splitFirst_eq_none {c : Char} {s : PyStr} :
    splitFirst c s = Option.none ↔ c ∉ s := by
  induction s with
  | nil => simp [splitFirst]
  | cons a rest ih =>
    unfold splitFirst
    by_cases h : a = c
    · subst h; simp
    · rw [if_neg h]
      cases hs : splitFirst c rest with
      | none =>
        have hcr : c ∉ rest := ih.mp hs
        have hca : c ≠ a := fun he => h he.symm
        simp [List.mem_cons, hcr, hca]
      | some p =>
        have hcr : c ∈ rest := by
          by_contra hcc
          rw [ih.mpr hcc] at hs
          cases hs
        simp [List.mem_cons, hcr]

theorem splitFirst_of_not_mem {c : Char} {xs : PyStr} (ys : PyStr) (h : c ∉ xs) :
    splitFirst c (xs ++ c :: ys) = some (xs, ys) := by
  induction xs with
  | nil => simp [splitFirst]
  | cons a rest ih =>
    have ha : a ≠ c := fun he => h (he ▸ List.mem_cons_self a rest)
    have hr : c ∉ rest := fun hm => h (List.mem_cons_of_mem a hm)
    simp [splitFirst, ha, ih hr]

theorem splitFirst_eq_some {c : Char} {s a b : PyStr} (h : splitFirst c s = some (a, b)) :
    s = a ++ c :: b ∧ c ∉ a := by
  induction s generalizing a b with
  | nil => simp [splitFirst] at h
  | cons x rest ih =>
    unfold splitFirst at h
    by_cases hx : x = c
    · rw [if_pos hx] at h
      have h' : ([] : PyStr) = a ∧ rest = b := by simpa using h
      obtain ⟨rfl, rfl⟩ := h'
      subst hx
      simp
    · rw [if_neg hx] at h
      cases hs : splitFirst c rest with
      | none => rw [hs] at h; simp at h
      | some p =>
        obtain ⟨p1, p2⟩ := p
        rw [hs] at h
        have h' : x :: p1 = a ∧ p2 = b := by simpa using h
        obtain ⟨rfl, rfl⟩ := h'
        obtain ⟨hrest, hnp⟩ := ih hs
        constructor
        · rw [hrest]; simp
        · intro hc
          rcases List.mem_cons.mp hc with h1 | h2
          · exact hx h1.symm
          · exact hnp h2

theorem splitLast_of_not_mem {c : Char} (xs : PyStr) {ys : PyStr} (h : c ∉ ys) :
    splitLast c (xs ++ c :: ys) = some (xs, ys) := by
  unfold splitLast
  have hrev : (xs ++ c :: ys).reverse = ys.reverse ++ c :: xs.reverse := by
    simp [List.reverse_append]
  rw [hrev, splitFirst_of_not_mem _ (by simpa using h)]
  simp

theorem splitLast_eq_none {c : Char} {s : PyStr} :
    splitLast c s = Option.none ↔ c ∉ s := by
  unfold splitLast
  cases hs : splitFirst c s.reverse with
  | none =>
    have := splitFirst_eq_none.mp hs
    simp only [List.mem_reverse] at this
    simp [this]
  | some p =>
    have hcr : c ∈ s := by
      by_contra hcc
      rw [splitFirst_eq_none.mpr (by simpa using hcc)] at hs
      cases hs
    obtain ⟨a, b⟩ := p
    simp [hcr]

theorem splitLast_eq_some {c : Char} {s a b : PyStr} (h : splitLast c s = some (a, b)) :
    s = a ++ c :: b ∧ c ∉ b := by
  unfold splitLast at h
  cases hs : splitFirst c s.reverse with
  | none => rw [hs] at h; cases h
  | some p =>
    obtain ⟨p1, p2⟩ := p
    rw [hs] at h
    have h' : p2.reverse = a ∧ p1.reverse = b := by simpa using h
    obtain ⟨rfl, rfl⟩ := h'
    obtain ⟨hrev, hnp⟩ := splitFirst_eq_some hs
    constructor
    · have := congrArg List.reverse hrev
      simpa [List.reverse_append] using this
    · simpa using hnp

theorem takeWhile_middle {p : Char → Bool} {xs : PyStr} (y : Char) (zs : PyStr)
    (hxs : ∀ x ∈ xs, p x = true) (hy : p y = false) :
    (xs ++ y :: zs).takeWhile p = xs ∧ (xs ++ y :: zs).dropWhile p = y :: zs := by
  induction xs with
  | nil => simp [List.takeWhile_cons, List.dropWhile_cons, hy]
  | cons a rest ih =>
    have ha := hxs a (List.mem_cons_self _ _)
    have hrest : ∀ x ∈ rest, p x = true := fun x hx => hxs x (List.mem_cons_of_mem _ hx)
    obtain ⟨h1, h2⟩ := ih hrest
    simp [List.takeWhile_cons, List.dropWhile_cons, ha, h1, h2]

theorem dropWhile_head_false {p : Char → Bool} (l : PyStr) :
    l.dropWhile p = [] ∨ p (l.dropWhile p).headI = false := by
  induction l with
  | nil => left; rfl
  | cons a rest ih =>
    cases h : p a with
    | true => simpa [List.dropWhile_cons, h] using ih
    | false => right; simp [List.dropWhile_cons, h]

theorem headI_append {xs : PyStr} (ys : PyStr) (h : xs ≠ []) :
    (xs ++ ys).headI = xs.headI := by
  cases xs with
  | nil => exact absurd rfl h
  | cons a rest => rfl

/-! ## `urllib.parse` model: stage lemmas -/

theorem splitScheme_reconstruct {S r : PyStr} (hmem : ':' ∉ S) (hne : S ≠ [])
    (halpha : S.headI.isAlpha = true) (hchars : S.all (fun c => isSchemeChar c) = true)
    (hlower : S.map Char.toLower = S) :
    splitScheme (S ++ ':' :: r) = (S, r) := by
  unfold splitScheme
  rw [splitFirst_of_not_mem r hmem]
  dsimp only
  rw [if_pos ⟨hne, halpha, hchars⟩, hlower]

theorem splitNetlocPy_reconstruct {N r : PyStr} (hN : ∀ x ∈ N, notNetlocDelim x = true)
    (hr : r.headI = '/') (hrne : r ≠ []) :
    splitNetlocPy ('/' :: '/' :: (N ++ r)) = (N, r) := by
  obtain ⟨rt, rfl⟩ : ∃ rt, r = '/' :: rt := by
    cases r with
    | nil => exact absurd rfl hrne
    | cons a t => exact ⟨t, by rw [← hr]; rfl⟩
  unfold splitNetlocPy
  rw [if_pos (by simp)]
  obtain ⟨h1, h2⟩ := takeWhile_middle (p := notNetlocDelim) '/' rt hN (by decide)
  simp only [List.drop_succ_cons, List.drop_zero, h1, h2]

theorem splitFragmentPy_no {s : PyStr} (h : '#' ∉ s) : splitFragmentPy s = (s, []) := by
  unfold splitFragmentPy
  rw [splitFirst_eq_none.mpr h]

theorem splitQueryPy_no {s : PyStr} (h : '?' ∉ s) : splitQueryPy s = (s, []) := by
  unfold splitQueryPy
  rw [splitFirst_eq_none.mpr h]

theorem splitQueryPy_reconstruct {a : PyStr} (b : PyStr) (h : '?' ∉ a) :
    splitQueryPy (a ++ '?' :: b) = (a, b) := by
  unfold splitQueryPy
  rw [splitFirst_of_not_mem b h]

theorem splitFragmentPy_fst_not_mem (s : PyStr) : '#' ∉ (splitFragmentPy s).1 := by
  unfold splitFragmentPy
  cases hs : splitFirst '#' s with
  | none => exact splitFirst_eq_none.mp hs
  | some p =>
    obtain ⟨a, b⟩ := p
    exact (splitFirst_eq_some hs).2

theorem splitQueryPy_fst_not_mem (s : PyStr) : '?' ∉ (splitQueryPy s).1 := by
  unfold splitQueryPy
  cases hs : splitFirst '?' s with
  | none => exact splitFirst_eq_none.mp hs
  | some p =>
    obtain ⟨a, b⟩ := p
    exact (splitFirst_eq_some hs).2

theorem splitFragmentPy_fst_append (s : PyStr) : ∃ t, (splitFragmentPy s).1 ++ t = s := by
  unfold splitFragmentPy
  cases hs : splitFirst '#' s with
  | none => exact ⟨[], by simp⟩
  | some p =>
    obtain ⟨a, b⟩ := p
    exact ⟨'#' :: b, ((splitFirst_eq_some hs).1).symm⟩

theorem splitQueryPy_fst_append (s : PyStr) : ∃ t, (splitQueryPy s).1 ++ t = s := by
  unfold splitQueryPy
  cases hs : splitFirst '?' s with
  | none => exact ⟨[], by simp⟩
  | some p =>
    obtain ⟨a, b⟩ := p
    exact ⟨'?' :: b, ((splitFirst_eq_some hs).1).symm⟩

theorem splitQueryPy_snd_not_mem {s : PyStr} (c : Char) (hc : c ∉ s) :
    c ∉ (splitQueryPy s).2 := by
  unfold splitQueryPy
  cases hs : splitFirst '?' s with
  | none => simp
  | some p =>
    obtain ⟨a, b⟩ := p
    have := (splitFirst_eq_some hs).1
    intro hm
    exact hc (this ▸ List.mem_append_right a (List.mem_cons_of_mem _ hm))

theorem splitNetlocPy_fst_all (rest : PyStr) :
    ∀ x ∈ (splitNetlocPy rest).1, notNetlocDelim x = true := by
  unfold splitNetlocPy
  split
  · intro x hx
    exact List.mem_takeWhile_imp hx
  · intro x hx
    simp at hx

theorem splitNetlocPy_snd (rest : PyStr) :
    (splitNetlocPy rest).1 ≠ [] →
    (splitNetlocPy rest).2 = [] ∨ notNetlocDelim (splitNetlocPy rest).2.headI = false := by
  unfold splitNetlocPy
  split
  · intro _
    exact dropWhile_head_false _
  · intro h
    exact absurd rfl h

/-! ## `urllib.parse` model: parameter-splitting lemmas -/

theorem slash_mem_of_head {p0 : PyStr} (hp0 : p0 = [] ∨ p0.headI = '/') (hne : p0 ≠ []) :
    '/' ∈ p0 := by
  rcases hp0 with rfl | hh
  · exact absurd rfl hne
  · cases p0 with
    | nil => exact absurd rfl hne
    | cons a t =>
      have : a = '/' := hh
      rw [this]
      exact List.mem_cons_self _ _

theorem splitparamsPy_parts (p0 : PyStr) :
    p0 = (splitparamsPy p0).1 ++ ';' :: (splitparamsPy p0).2 ∨
    ((splitparamsPy p0).1 = p0 ∧ (splitparamsPy p0).2 = []) := by
  unfold splitparamsPy
  cases hsl : splitLast '/' p0 with
  | some pr =>
    obtain ⟨before, seg⟩ := pr
    obtain ⟨hp0eq, hsegna⟩ := splitLast_eq_some hsl
    dsimp only
    cases hsf : splitFirst ';' seg with
    | some q =>
      obtain ⟨segA, segB⟩ := q
      obtain ⟨hseq, _⟩ := splitFirst_eq_some hsf
      left
      dsimp only
      rw [hp0eq, hseq]
      simp
    | none =>
      right
      exact ⟨rfl, rfl⟩
  | none =>
    dsimp only
    cases hsf : splitFirst ';' p0 with
    | some q =>
      obtain ⟨a, b⟩ := q
      left
      dsimp only
      exact (splitFirst_eq_some hsf).1
    | none =>
      right
      exact ⟨rfl, rfl⟩

theorem splitparamsPy_params_no_slash (p0 : PyStr) : '/' ∉ (splitparamsPy p0).2 := by
  unfold splitparamsPy
  cases hsl : splitLast '/' p0 with
  | some pr =>
    obtain ⟨before, seg⟩ := pr
    have hsegna : '/' ∉ seg := (splitLast_eq_some hsl).2
    dsimp only
    cases hsf : splitFirst ';' seg with
    | some q =>
      obtain ⟨segA, segB⟩ := q
      have hseq := (splitFirst_eq_some hsf).1
      dsimp only
      intro hm
      exact hsegna (hseq ▸ List.mem_append_right segA (List.mem_cons_of_mem _ hm))
    | none => simp
  | none =>
    have hp0 : '/' ∉ p0 := splitLast_eq_none.mp hsl
    dsimp only
    cases hsf : splitFirst ';' p0 with
    | some q =>
      obtain ⟨a, b⟩ := q
      have hseq := (splitFirst_eq_some hsf).1
      dsimp only
      intro hm
      exact hp0 (hseq ▸ List.mem_append_right a (List.mem_cons_of_mem _ hm))
    | none => simp

/-- The parameter split, redone on the unparsed `path ++ ';' ++ params`,
returns the same components (the CPython `_splitparams` round trip). -/
theorem params_roundtrip {p0 path params : PyStr}
    (h : (if ';' ∈ p0 then splitparamsPy p0 else (p0, [])) = (path, params))
    (hp0 : p0 = [] ∨ p0.headI = '/') :
    (if ';' ∈ path ++ (if params = [] then [] else ';' :: params)
     then splitparamsPy (path ++ (if params = [] then [] else ';' :: params))
     else (path ++ (if params = [] then [] else ';' :: params), [])) = (path, params) := by
  by_cases hsemi : ';' ∈ p0
  · rw [if_pos hsemi] at h
    unfold splitparamsPy at h
    cases hsl : splitLast '/' p0 with
    | none =>
      exfalso
      have hslash : '/' ∉ p0 := splitLast_eq_none.mp hsl
      have hne : p0 ≠ [] := by
        intro he
        rw [he] at hsemi
        simp at hsemi
      exact hslash (slash_mem_of_head hp0 hne)
    | some pr =>
      obtain ⟨before, seg⟩ := pr
      rw [hsl] at h
      dsimp only at h
      obtain ⟨hp0eq, hsegna⟩ := splitLast_eq_some hsl
      cases hsf : splitFirst ';' seg with
      | some q =>
        obtain ⟨segA, segB⟩ := q
        rw [hsf] at h
        dsimp only at h
        obtain ⟨hseq, hsemiA⟩ := splitFirst_eq_some hsf
        have hpath : before ++ '/' :: segA = path := by
          simpa using congrArg Prod.fst h
        have hparams : segB = params := by
          simpa using congrArg Prod.snd h
        subst hpath hparams
        have hsegAslash : '/' ∉ segA := fun hm =>
          hsegna (hseq ▸ List.mem_append_left _ hm)
        have hsegBslash : '/' ∉ segB := fun hm =>
          hsegna (hseq ▸ List.mem_append_right segA (List.mem_cons_of_mem _ hm))
        by_cases hB : segB = []
        · subst hB
          simp only [eq_self_iff_true, if_true, List.append_nil]
          by_cases hsT : ';' ∈ before ++ '/' :: segA
          · rw [if_pos hsT]
            unfold splitparamsPy
            rw [splitLast_of_not_mem before hsegAslash]
            dsimp only
            rw [splitFirst_eq_none.mpr hsemiA]
          · rw [if_neg hsT]
        · rw [if_neg hB]
          have hmemT : ';' ∈ (before ++ '/' :: segA) ++ ';' :: segB :=
            List.mem_append_right _ (List.mem_cons_self _ _)
          rw [if_pos hmemT]
          unfold splitparamsPy
          have hassoc : (before ++ '/' :: segA) ++ ';' :: segB =
              before ++ '/' :: (segA ++ ';' :: segB) := by simp
          rw [hassoc, splitLast_of_not_mem before (by
            intro hm
            rcases List.mem_append.mp hm with h1 | h2
            · exact hsegAslash h1
            · rcases List.mem_cons.mp h2 with h3 | h4
              · cases h3
              · exact hsegBslash h4)]
          dsimp only
          rw [splitFirst_of_not_mem segB hsemiA]
      | none =>
        rw [hsf] at h
        dsimp only at h
        have hpath : p0 = path := by simpa using congrArg Prod.fst h
        have hparams : ([] : PyStr) = params := by simpa using congrArg Prod.snd h
        subst hpath hparams
        simp only [eq_self_iff_true, if_true, List.append_nil]
        rw [if_pos hsemi]
        unfold splitparamsPy
        rw [hsl]
        dsimp only
        rw [hsf]
  · rw [if_neg hsemi] at h
    have hpath : p0 = path := by simpa using congrArg Prod.fst h
    have hparams : ([] : PyStr) = params := by simpa using congrArg Prod.snd h
    subst hpath hparams
    simp only [eq_self_iff_true, if_true, List.append_nil]
    rw [if_neg hsemi]

/-- When the split yields an empty path, the parameters are empty too
(under the leading-slash invariant). -/
theorem params_empty_of_path_empty {p0 path params : PyStr}
    (h : (if ';' ∈ p0 then splitparamsPy p0 else (p0, [])) = (path, params))
    (hp0 : p0 = [] ∨ p0.headI = '/') (hpath : path = []) : params = [] := by
  by_cases hsemi : ';' ∈ p0
  · rw [if_pos hsemi] at h
    unfold splitparamsPy at h
    cases hsl : splitLast '/' p0 with
    | none =>
      exfalso
      have hslash : '/' ∉ p0 := splitLast_eq_none.mp hsl
      have hne : p0 ≠ [] := by
        intro he
        rw [he] at hsemi
        simp at hsemi
      exact hslash (slash_mem_of_head hp0 hne)
    | some pr =>
      obtain ⟨before, seg⟩ := pr
      rw [hsl] at h
      dsimp only at h
      cases hsf : splitFirst ';' seg with
      | some q =>
        obtain ⟨segA, segB⟩ := q
        rw [hsf] at h
        dsimp only at h
        exfalso
        have hpe : before ++ '/' :: segA = path := by
          simpa using congrArg Prod.fst h
        rw [hpath] at hpe
        simp at hpe
      | none =>
        rw [hsf] at h
        dsimp only at h
        have h2 := congrArg Prod.snd h
        simpa using h2.symm
  · rw [if_neg hsemi] at h
    have h2 := congrArg Prod.snd h
    simpa using h2.symm

/-! ## `urllib.parse` model: inversion -/

theorem headI_mem {l : PyStr} (h : l ≠ []) : l.headI ∈ l := by
  cases l with
  | nil => exact absurd rfl h
  | cons a t => exact List.mem_cons_self _ _

theorem notNetlocDelim_false {d : Char} (h : notNetlocDelim d = false) :
    d = '/' ∨ d = '?' ∨ d = '#' := by
  by_contra hc
  push_neg at hc
  obtain ⟨h1, h2, h3⟩ := hc
  simp [notNetlocDelim, h1, h2, h3] at h

theorem urlsplitPy_eq_some {u S N P0 Q F : PyStr}
    (h : urlsplitPy u = some (S, N, P0, Q, F)) :
    S = (splitScheme u).1 ∧
    N = (splitNetlocPy (splitScheme u).2).1 ∧
    P0 = (splitQueryPy (splitFragmentPy (splitNetlocPy (splitScheme u).2).2).1).1 ∧
    Q = (splitQueryPy (splitFragmentPy (splitNetlocPy (splitScheme u).2).2).1).2 ∧
    F = (splitFragmentPy (splitNetlocPy (splitScheme u).2).2).2 ∧
    ¬ bracketMismatch N := by
  unfold urlsplitPy at h
  split at h
  · cases h
  · next hbr =>
    obtain ⟨h1, h2, h3, h4, h5⟩ :
        (splitScheme u).1 = S ∧
        (splitNetlocPy (splitScheme u).2).1 = N ∧
        (splitQueryPy (splitFragmentPy (splitNetlocPy (splitScheme u).2).2).1).1 = P0 ∧
        (splitQueryPy (splitFragmentPy (splitNetlocPy (splitScheme u).2).2).1).2 = Q ∧
        (splitFragmentPy (splitNetlocPy (splitScheme u).2).2).2 = F := by
      simpa using h
    exact ⟨h1.symm, h2.symm, h3.symm, h4.symm, h5.symm, h2 ▸ hbr⟩

/-- Inversion for a successful `urlparse` with a nonempty netloc: the
component invariants needed to re-parse an unparsed URL. -/
theorem urlparsePy_inv {u : PyStr} {r : UrlParseResult} (h : urlparsePy u = some r)
    (hnet : r.netloc ≠ []) :
    (∀ x ∈ r.netloc, notNetlocDelim x = true) ∧
    ¬ bracketMismatch r.netloc ∧
    (r.path = [] ∨ r.path.headI = '/') ∧
    '#' ∉ r.path ∧ '?' ∉ r.path ∧ '#' ∉ r.query ∧
    '/' ∉ r.params ∧ '?' ∉ r.params ∧ '#' ∉ r.params ∧
    (r.path = [] → r.params = []) ∧
    (r.scheme ∈ uses_params_schemes →
      (if ';' ∈ r.path ++ (if r.params = [] then [] else ';' :: r.params)
       then splitparamsPy (r.path ++ (if r.params = [] then [] else ';' :: r.params))
       else (r.path ++ (if r.params = [] then [] else ';' :: r.params), [])) =
      (r.path, r.params)) := by
  unfold urlparsePy at h
  cases hsp : urlsplitPy u with
  | none => rw [hsp] at h; cases h
  | some quint =>
    obtain ⟨S, N, P0, Q, F⟩ := quint
    rw [hsp] at h
    dsimp only at h
    obtain ⟨hS, hN, hP0, hQ, _, hbr⟩ := urlsplitPy_eq_some hsp
    have hNall : ∀ x ∈ N, notNetlocDelim x = true := by
      rw [hN]; exact splitNetlocPy_fst_all _
    have hfragh : '#' ∉ (splitFragmentPy (splitNetlocPy (splitScheme u).2).2).1 :=
      splitFragmentPy_fst_not_mem _
    have hP0q : '?' ∉ P0 := by
      rw [hP0]; exact splitQueryPy_fst_not_mem _
    have hP0h : '#' ∉ P0 := by
      obtain ⟨t, ht⟩ := splitQueryPy_fst_append
        (splitFragmentPy (splitNetlocPy (splitScheme u).2).2).1
      rw [hP0]
      intro hm
      exact hfragh (ht ▸ List.mem_append_left t hm)
    have hQh : '#' ∉ Q := by
      rw [hQ]; exact splitQueryPy_snd_not_mem '#' hfragh
    have hNne : N ≠ [] := by
      split at h <;>
        · have := congrArg UrlParseResult.netloc (Option.some.inj h)
          dsimp at this
          rw [← this] at hnet
          exact hnet
    have hhead : P0 = [] ∨ P0.headI = '/' := by
      rcases splitNetlocPy_snd ((splitScheme u).2) (hN ▸ hNne) with h2 | h2
      · left
        rw [hP0, h2]
        rfl
      · by_cases hP0e : P0 = []
        · exact Or.inl hP0e
        · right
          obtain ⟨t1, ht1⟩ := splitFragmentPy_fst_append (splitNetlocPy (splitScheme u).2).2
          obtain ⟨t2, ht2⟩ := splitQueryPy_fst_append
            (splitFragmentPy (splitNetlocPy (splitScheme u).2).2).1
          have hcomp : P0 ++ (t2 ++ t1) = (splitNetlocPy (splitScheme u).2).2 := by
            rw [hP0, ← List.append_assoc, ht2, ht1]
          have hhead1 : (splitNetlocPy (splitScheme u).2).2.headI = P0.headI := by
            rw [← hcomp]
            exact headI_append _ hP0e
          rw [hhead1] at h2
          rcases notNetlocDelim_false h2 with hd | hd | hd
          · exact hd
          · exact absurd (hd ▸ headI_mem hP0e) hP0q
          · exact absurd (hd ▸ headI_mem hP0e) hP0h
    split at h
    · next hcond =>
      obtain ⟨husesS, hsemiP0⟩ := hcond
      have hr : r = ⟨S, N, (splitparamsPy P0).1, (splitparamsPy P0).2, Q, F⟩ :=
        (Option.some.inj h).symm
      subst hr
      dsimp only at hnet ⊢
      have hsplit : (if ';' ∈ P0 then splitparamsPy P0 else (P0, [])) =
          ((splitparamsPy P0).1, (splitparamsPy P0).2) := by
        rw [if_pos hsemiP0]
      rcases splitparamsPy_parts P0 with hparts | ⟨hparts1, hparts2⟩
      · refine ⟨hNall, hbr, ?_, ?_, ?_, hQh, splitparamsPy_params_no_slash P0, ?_, ?_,
          fun hpe => params_empty_of_path_empty hsplit hhead hpe, ?_⟩
        · by_cases hpe : (splitparamsPy P0).1 = []
          · exact Or.inl hpe
          · right
            have hne : P0 ≠ [] := by
              rw [hparts]
              simp
            rcases hhead with h3 | h3
            · exact absurd h3 hne
            · rw [hparts, headI_append _ hpe] at h3
              exact h3
        · intro hm
          exact hP0h (hparts ▸ List.mem_append_left _ hm)
        · intro hm
          exact hP0q (hparts ▸ List.mem_append_left _ hm)
        · intro hm
          exact hP0q (hparts ▸ List.mem_append_right _ (List.mem_cons_of_mem _ hm))
        · intro hm
          exact hP0h (hparts ▸ List.mem_append_right _ (List.mem_cons_of_mem _ hm))
        · intro _
          exact params_roundtrip hsplit hhead
      · refine ⟨hNall, hbr, ?_, ?_, ?_, hQh, splitparamsPy_params_no_slash P0, ?_, ?_,
          fun _ => hparts2, ?_⟩
        · rw [hparts1]; exact hhead
        · rw [hparts1]; exact hP0h
        · rw [hparts1]; exact hP0q
        · rw [hparts2]; simp
        · rw [hparts2]; simp
        · intro _
          exact params_roundtrip hsplit hhead
    · next hcond =>
      have hr : r = ⟨S, N, P0, [], Q, F⟩ := (Option.some.inj h).symm
      subst hr
      dsimp only at hnet ⊢
      refine ⟨hNall, hbr, hhead, hP0h, hP0q, hQh, by simp, by simp, by simp,
        fun _ => rfl, ?_⟩
      intro husesS
      have hsemiP0 : ';' ∉ P0 := fun hm => hcond ⟨husesS, hm⟩
      simp only [eq_self_iff_true, if_true, List.append_nil]
      rw [if_neg hsemiP0]

/-! ## `urllib.parse` model: reconstruction (parse after unparse) -/

/-- Re-parsing an unparsed URL whose components satisfy the invariants of
`urlparsePy_inv` recovers exactly the same components. -/
theorem urlparse_of_unparse {S N P' params Q : PyStr}
    (hS : S = "http".data ∨ S = "https".data ∨ S = "sftp".data)
    (hN : ∀ x ∈ N, notNetlocDelim x = true)
    (hNne : N ≠ [])
    (hbr : ¬ bracketMismatch N)
    (hPne : P' ≠ []) (hPhead : P'.headI = '/')
    (hPq : '?' ∉ P') (hPh : '#' ∉ P')
    (hparQ : '?' ∉ params) (hparH : '#' ∉ params)
    (hQh : '#' ∉ Q)
    (hRT : (if ';' ∈ P' ++ (if params = [] then [] else ';' :: params)
            then splitparamsPy (P' ++ (if params = [] then [] else ';' :: params))
            else (P' ++ (if params = [] then [] else ';' :: params), [])) =
           (P', params)) :
    urlparsePy (urlunparsePy S N P' params Q []) = some ⟨S, N, P', params, Q, []⟩ := by
  set P2 := P' ++ (if params = [] then [] else ';' :: params) with hP2
  set Qs := (if Q = [] then [] else '?' :: Q) with hQs
  have huses : S ∈ uses_params_schemes := by
    rcases hS with rfl | rfl | rfl <;> decide
  have hP2ne : P2 ≠ [] := by
    rw [hP2]
    cases P' with
    | nil => exact absurd rfl hPne
    | cons a t => simp
  have hP2head : P2.headI = '/' := by
    rw [hP2, headI_append _ hPne]
    exact hPhead
  have hP2q : '?' ∉ P2 := by
    rw [hP2]
    intro hm
    rcases List.mem_append.mp hm with h1 | h2
    · exact hPq h1
    · by_cases hp : params = []
      · rw [if_pos hp] at h2
        simp at h2
      · rw [if_neg hp] at h2
        rcases List.mem_cons.mp h2 with h3 | h4
        · cases h3
        · exact hparQ h4
  have hP2h : '#' ∉ P2 := by
    rw [hP2]
    intro hm
    rcases List.mem_append.mp hm with h1 | h2
    · exact hPh h1
    · by_cases hp : params = []
      · rw [if_pos hp] at h2
        simp at h2
      · rw [if_neg hp] at h2
        rcases List.mem_cons.mp h2 with h3 | h4
        · cases h3
        · exact hparH h4
  have hmid : (if params ≠ [] then P' ++ ';' :: params else P') = P2 := by
    rw [hP2]
    by_cases hp : params = [] <;> simp [hp]
  have hnl : netlocJoin N P2 = '/' :: '/' :: (N ++ P2) := by
    unfold netlocJoin
    rw [if_pos (Or.inl hNne), if_neg (by intro hc; exact hc.2 hP2head)]
    simp
  have hsj : schemeJoin S ('/' :: '/' :: (N ++ P2)) =
      S ++ ':' :: ('/' :: '/' :: (N ++ P2)) := by
    unfold schemeJoin
    rw [if_pos (by rcases hS with rfl | rfl | rfl <;> decide)]
  have hn : urlunparsePy S N P' params Q [] =
      S ++ ':' :: ('/' :: '/' :: (N ++ (P2 ++ Qs))) := by
    unfold urlunparsePy urlunsplitPy
    rw [hmid, hnl, hsj]
    unfold fragmentJoin queryJoin
    rw [if_neg (by simp)]
    by_cases hq : Q = []
    · rw [if_neg (by simp [hq]), hQs, if_pos hq]
      simp
    · rw [if_pos hq, hQs, if_neg hq]
      simp
  have hsch : splitScheme (S ++ ':' :: ('/' :: '/' :: (N ++ (P2 ++ Qs)))) =
      (S, '/' :: '/' :: (N ++ (P2 ++ Qs))) := by
    rcases hS with rfl | rfl | rfl <;>
      exact splitScheme_reconstruct (by decide) (by decide) (by decide) (by decide)
        (by decide)
  have hPQne : P2 ++ Qs ≠ [] := by
    cases hc : P2 with
    | nil => exact absurd hc hP2ne
    | cons a t => simp
  have hPQhead : (P2 ++ Qs).headI = '/' := by
    rw [headI_append _ hP2ne]
    exact hP2head
  have hnet2 : splitNetlocPy ('/' :: '/' :: (N ++ (P2 ++ Qs))) = (N, P2 ++ Qs) :=
    splitNetlocPy_reconstruct hN hPQhead hPQne
  have hfr : '#' ∉ P2 ++ Qs := by
    intro hm
    rcases List.mem_append.mp hm with h1 | h2
    · exact hP2h h1
    · by_cases hq : Q = []
      · rw [hQs, if_pos hq] at h2
        simp at h2
      · rw [hQs, if_neg hq] at h2
        rcases List.mem_cons.mp h2 with h3 | h4
        · cases h3
        · exact hQh h4
  have hfrag2 : splitFragmentPy (P2 ++ Qs) = (P2 ++ Qs, []) := splitFragmentPy_no hfr
  have hq2 : splitQueryPy (P2 ++ Qs) = (P2, Q) := by
    by_cases hq : Q = []
    · rw [hQs, if_pos hq, List.append_nil, splitQueryPy_no hP2q, hq]
    · rw [hQs, if_neg hq]
      exact splitQueryPy_reconstruct Q hP2q
  have hsplit : urlsplitPy (S ++ ':' :: ('/' :: '/' :: (N ++ (P2 ++ Qs)))) =
      some (S, N, P2, Q, []) := by
    unfold urlsplitPy
    rw [hsch]
    dsimp only
    rw [hnet2]
    dsimp only
    rw [if_neg hbr, hfrag2]
    dsimp only
    rw [hq2]
  rw [hn]
  unfold urlparsePy
  rw [hsplit]
  dsimp only
  by_cases hsemi : ';' ∈ P2
  · rw [if_pos ⟨huses, hsemi⟩]
    rw [if_pos hsemi] at hRT
    have h1 : (splitparamsPy P2).1 = P' := congrArg Prod.fst hRT
    have h2 : (splitparamsPy P2).2 = params := congrArg Prod.snd hRT
    rw [h1, h2]
  · rw [if_neg (fun hc => hsemi hc.2)]
    rw [if_neg hsemi] at hRT
    have h1 : P2 = P' := congrArg Prod.fst hRT
    have h2 : ([] : PyStr) = params := congrArg Prod.snd hRT
    rw [h1, ← h2]

/-! ## URL validator idempotence (C10) -/

theorem dropWhile_eq_self_of {p : Char → Bool} {s : PyStr} (h : ∀ c ∈ s, p c = false) :
    s.dropWhile p = s := by
  cases s with
  | nil => rfl
  | cons a t => simp [List.dropWhile_cons, h a (List.mem_cons_self _ _)]

theorem takeWhile_all {p : Char → Bool} {s : PyStr} (h : ∀ c ∈ s, p c = true) :
    s.takeWhile p = s ∧ s.dropWhile p = [] := by
  induction s with
  | nil => exact ⟨rfl, rfl⟩
  | cons a t ih =>
    have ha := h a (List.mem_cons_self _ _)
    have ht := ih (fun c hc => h c (List.mem_cons_of_mem _ hc))
    simp [List.takeWhile_cons, List.dropWhile_cons, ha, ht.1, ht.2]

theorem pyStrip_eq_self {s : PyStr} (h : ∀ c ∈ s, pyIsSpace c = false) : pyStrip s = s := by
  unfold pyStrip
  rw [dropWhile_eq_self_of h,
    dropWhile_eq_self_of (fun c hc => h c (by simpa using hc)), List.reverse_reverse]

/-- C10 counterexample: a 2048-character URL with an empty path is
accepted and normalized to 2049 characters (the empty path became `'/'`);
re-validating the normalized URL fails the length check instead of
returning it unchanged. -/
theorem C10_counterexample :
    validate_url true u2048 = .ok n2049 ∧
    n2049.length = 2049 ∧
    validate_url true n2049 = .error .tooLong := by
  have hhttp : "http://".data = "http".data ++ ':' :: '/' :: '/' :: [] := by rfl
  have hAa : ∀ c ∈ (List.replicate 2041 'a' : PyStr), c = 'a' :=
    fun c hc => List.eq_of_mem_replicate hc
  have hnosp1 : ∀ c ∈ u2048, pyIsSpace c = false := by
    intro c hc
    rcases List.mem_append.mp hc with h1 | h2
    · have h7 : "http://".data = ['h', 't', 't', 'p', ':', '/', '/'] := rfl
      rw [h7] at h1
      fin_cases h1 <;> decide
    · rw [hAa c h2]
      decide
  have hnosp2 : ∀ c ∈ n2049, pyIsSpace c = false := by
    intro c hc
    rcases List.mem_append.mp hc with h1 | h2
    · exact hnosp1 c h1
    · have hc' : c = '/' := by simpa using h2
      rw [hc']
      decide
  have hlen1 : u2048.length = 2048 := by
    unfold u2048
    rw [List.length_append, List.length_replicate]
    rfl
  have hlen2 : n2049.length = 2049 := by
    unfold n2049
    rw [List.length_append, List.length_append, List.length_replicate]
    rfl
  have hu : u2048 = "http".data ++ ':' :: ('/' :: '/' :: List.replicate 2041 'a') := by
    unfold u2048
    rw [hhttp]
    simp only [List.append_assoc, List.cons_append, List.nil_append]
  have hsch : splitScheme u2048 =
      ("http".data, '/' :: '/' :: List.replicate 2041 'a') := by
    rw [hu]
    exact splitScheme_reconstruct (by decide) (by decide) (by decide) (by decide) (by decide)
  have hAdelim : ∀ x ∈ (List.replicate 2041 'a' : PyStr), notNetlocDelim x = true := by
    intro x hx
    rw [hAa x hx]
    decide
  have hnl : splitNetlocPy ('/' :: '/' :: List.replicate 2041 'a') =
      (List.replicate 2041 'a', []) := by
    unfold splitNetlocPy
    rw [if_pos (by simp)]
    obtain ⟨h1, h2⟩ := takeWhile_all hAdelim
    simp only [List.drop_succ_cons, List.drop_zero, h1, h2]
  have hsplit : urlsplitPy u2048 =
      some ("http".data, List.replicate 2041 'a', [], [], []) := by
    unfold urlsplitPy
    rw [hsch]
    dsimp only
    rw [hnl]
    dsimp only
    rw [if_neg (by
      intro hc
      rcases hc with ⟨hm, _⟩ | ⟨hm, _⟩ <;> exact absurd (hAa _ hm) (by decide))]
    rfl
  have hparse : urlparsePy u2048 =
      some ⟨"http".data, List.replicate 2041 'a', [], [], [], []⟩ := by
    unfold urlparsePy
    rw [hsplit]
    dsimp only
    rw [if_neg (by intro hc; simp at hc)]
  have hAne : (List.replicate 2041 'a' : PyStr) ≠ [] := by simp
  have hu2ne : u2048 ≠ [] := by
    rw [hu]
    simp
  have hone : validate_url true u2048 = .ok n2049 := by
    unfold validate_url
    rw [if_neg hu2ne, pyStrip_eq_self hnosp1,
      if_neg (by rw [hlen1]; decide), hparse]
    dsimp only
    rw [if_neg (by rw [not_not]; decide), if_neg hAne, if_pos rfl]
    have hthis : urlunparsePy "http".data (List.replicate 2041 'a') ['/'] [] [] [] =
        n2049 := by
      unfold urlunparsePy
      rw [if_neg (by simp)]
      unfold urlunsplitPy fragmentJoin queryJoin schemeJoin netlocJoin
      rw [if_neg (by simp), if_neg (by simp),
        if_pos (show ("http".data : PyStr) ≠ [] by decide),
        if_pos (Or.inl hAne), if_neg (by intro hc; exact hc.2 rfl)]
      unfold n2049
      rw [hhttp]
      simp only [List.append_assoc, List.cons_append, List.nil_append]
    rw [hthis]
  refine ⟨hone, hlen2, ?_⟩
  unfold validate_url
  rw [if_neg (by
      intro he
      rw [he] at hlen2
      simp at hlen2),
    pyStrip_eq_self hnosp2, if_pos (by rw [hlen2]; decide)]

/-- C10 (amended): `validate_url` is idempotent on its normalized output
provided the output is within the 2048-character cap and carries no
surrounding whitespace: if `validate_url` returns `n` with
`strip(n) = n` and `len(n) ≤ 2048`, then validating `n` again succeeds
and returns `n` unchanged.  (Near the 2048 limit, normalization that
lengthens the URL — an empty path becoming `'/'` — makes the second call
fail the length check; and fragment removal can expose trailing
whitespace, which the second call strips.) -/
theorem C10_validate_url_idempotent (allowSftp : Bool) (url n : PyStr)
    (h : validate_url allowSftp url = .ok n)
    (hstrip : pyStrip n = n) (hlen : n.length ≤ MAX_URL_LENGTH) :
    validate_url allowSftp n = .ok n := by
  unfold validate_url at h
  by_cases h0 : url = []
  · rw [if_pos h0] at h; cases h
  rw [if_neg h0] at h
  by_cases h1 : MAX_URL_LENGTH < (pyStrip url).length
  · rw [if_pos h1] at h; cases h
  rw [if_neg h1] at h
  cases hp : urlparsePy (pyStrip url) with
  | none => rw [hp] at h; cases h
  | some parsed =>
    rw [hp] at h
    dsimp only at h
    by_cases h2 : parsed.scheme ∉ allowedSchemes allowSftp
    · rw [if_pos h2] at h; cases h
    rw [if_neg h2] at h
    by_cases h3 : parsed.netloc = []
    · rw [if_pos h3] at h; cases h
    rw [if_neg h3] at h
    have hn : n = urlunparsePy parsed.scheme parsed.netloc
        (if parsed.path = [] then ['/'] else parsed.path) parsed.params
        parsed.query [] := (Except.ok.inj h).symm
    obtain ⟨hNall, hbr, hhead, hPh, hPq, hQh, _, hparQ, hparH, hempty, hRT⟩ :=
      urlparsePy_inv hp h3
    rw [not_not] at h2
    have hS3 : parsed.scheme = "http".data ∨ parsed.scheme = "https".data ∨
        parsed.scheme = "sftp".data := by
      cases allowSftp <;> simp [allowedSchemes] at h2 <;> tauto
    have huses : parsed.scheme ∈ uses_params_schemes := by
      rcases hS3 with he | he | he <;> rw [he] <;> decide
    have hPne : (if parsed.path = [] then ['/'] else parsed.path) ≠ [] := by
      by_cases hpp : parsed.path = [] <;> simp [hpp]
    have hPhead : (if parsed.path = [] then ['/'] else parsed.path).headI = '/' := by
      by_cases hpp : parsed.path = []
      · simp [hpp]
      · rw [if_neg hpp]
        rcases hhead with he | he
        · exact absurd he hpp
        · exact he
    have hPq' : '?' ∉ (if parsed.path = [] then ['/'] else parsed.path) := by
      by_cases hpp : parsed.path = []
      · simp [hpp]
      · rw [if_neg hpp]; exact hPq
    have hPh' : '#' ∉ (if parsed.path = [] then ['/'] else parsed.path) := by
      by_cases hpp : parsed.path = []
      · simp [hpp]
      · rw [if_neg hpp]; exact hPh
    have hRT' : (if ';' ∈ (if parsed.path = [] then ['/'] else parsed.path) ++
            (if parsed.params = [] then [] else ';' :: parsed.params)
        then splitparamsPy ((if parsed.path = [] then ['/'] else parsed.path) ++
            (if parsed.params = [] then [] else ';' :: parsed.params))
        else ((if parsed.path = [] then ['/'] else parsed.path) ++
            (if parsed.params = [] then [] else ';' :: parsed.params), [])) =
        ((if parsed.path = [] then ['/'] else parsed.path), parsed.params) := by
      by_cases hpp : parsed.path = []
      · have hpar := hempty hpp
        rw [if_pos hpp, hpar]
        simp only [eq_self_iff_true, if_true, List.append_nil]
        rw [if_neg (by decide)]
      · rw [if_neg hpp]
        exact hRT huses
    have hparse_n : urlparsePy n =
        some ⟨parsed.scheme, parsed.netloc,
              (if parsed.path = [] then ['/'] else parsed.path), parsed.params,
              parsed.query, []⟩ := by
      rw [hn]
      exact urlparse_of_unparse hS3 hNall h3 hbr hPne hPhead hPq' hPh'
        hparQ hparH hQh hRT'
    have hnne : n ≠ [] := by
      intro he
      rw [he] at hparse_n
      have : parsed.netloc = [] := by
        have hnil : urlparsePy ([] : PyStr) = some ⟨[], [], [], [], [], []⟩ := by rfl
        rw [hnil] at hparse_n
        have := congrArg UrlParseResult.netloc (Option.some.inj hparse_n)
        exact this.symm ▸ rfl
      exact h3 this
    unfold validate_url
    rw [if_neg hnne, hstrip, if_neg (not_lt.mpr hlen), hparse_n]
    dsimp only
    rw [if_neg (by rw [not_not]; exact h2), if_neg h3, if_neg hPne, ← hn]

/-- C10 witness: re-validating the normalized form of
`http://example.com/a;b?q#frag` returns it unchanged. -/
theorem C10_validate_url_idempotent_witness :
    validate_url true "http://example.com/a;b?q".data =
      .ok "http://example.com/a;b?q".data := by
  have h := C10_validate_url_idempotent true "http://example.com/a;b?q#frag".data
    "http://example.com/a;b?q".data (by rfl) (by rfl) (by decide)
  exact h

end Snowscrape
